import Mathlib

/-!
# Verification of the odr-radiodns-bridge resolver against its design spec

Shallow embedding of the repository's code:

* `src/src/odr/radiodns/resolver.py` — the Boost-info configuration parser
  (`BoostInfoTree`, `BoostInfoParser`), the multiplex model builder
  (`parse_mux_config`), the DNS resolution step (`resolve_dns`) and the EPG
  aggregation (`resolve_epg`);
* `src/spi.py` — the bearer classes `DabBearer`, `FmBearer`, `IpBearer`
  with their string codecs.

Strings are modelled as `List Char`.  Python exceptions are modelled by the
`PyErr` type and `Except PyErr`.  Machine behaviour that the code relies on
(`str.strip`, `str.find`, `shlex.split`, `int(s, 16)`, `"%x"`-style
formatting, the two `re` patterns of `spi.py`) is modelled by explicit
executable functions below, each next to the definition that uses it.
-/

set_option autoImplicit false

/-- Python exception classes that the modelled code can raise. -/
inductive PyErr where
  | keyError (k : List Char)
  | indexError
  | valueError
  | typeError
  | attributeError
deriving DecidableEq, Repr

/-- Shorthand: the character list of a string literal. -/
def chars (s : String) : List Char := s.toList

/-- Whitespace for Python's `str.strip()` (byte strings):
space, tab, newline, carriage return, vertical tab, form feed. -/
def pyWs (c : Char) : Bool :=
  c = ' ' || c = '\t' || c = '\n' || c = '\r' || c = '\x0b' || c = '\x0c'

/-- `s.lstrip()`. -/
def lstrip (s : List Char) : List Char := s.dropWhile pyWs

/-- `s.rstrip()`. -/
def rstrip (s : List Char) : List Char := (s.reverse.dropWhile pyWs).reverse

/-- `s.strip()`. -/
def pyStrip (s : List Char) : List Char := rstrip (lstrip s)

/-- `s.find(c)` as an `Option`: index of the first occurrence of `c`. -/
def charIdx (c : Char) : List Char → Option Nat
  | [] => none
  | d :: ds => if d = c then some 0 else (charIdx c ds).map (· + 1)

/-- Lowercase hex digit characters, as `"%x"` formatting produces. -/
def hexDigitChar (n : Nat) : Char :=
  if n < 10 then Char.ofNat (48 + n) else Char.ofNat (87 + n)

/-- Fuel-driven digit production (most significant first, prepending onto
`acc`); the fuel only bounds the recursion depth and `n < fuel` always
provides enough. -/
def natToHexAux : Nat → Nat → List Char → List Char
  | 0, _, acc => acc
  | fuel + 1, n, acc =>
    if n < 16 then hexDigitChar n :: acc
    else natToHexAux fuel (n / 16) (hexDigitChar (n % 16) :: acc)

/-- Hex digits (no prefix) of `n`, most significant first; `"0"` for `0`
(the digits `"{:x}".format(n)` produces). -/
def natToHex (n : Nat) : List Char := natToHexAux (n + 1) n []

def natToDecAux : Nat → Nat → List Char → List Char
  | 0, _, acc => acc
  | fuel + 1, n, acc =>
    if n < 10 then Char.ofNat (48 + n) :: acc
    else natToDecAux fuel (n / 10) (Char.ofNat (48 + n % 10) :: acc)

/-- Decimal digits of `n`, most significant first (`"{:d}".format(n)`). -/
def natToDec (n : Nat) : List Char := natToDecAux (n + 1) n []

/-- Zero padding to a minimum width, as `"{:0Nx}"` / `"{:0Nd}"` do. -/
def zfill (w : Nat) (s : List Char) : List Char :=
  List.replicate (w - s.length) '0' ++ s

/-- `"{:0wx}".format(n)`: lowercase hex, zero-padded to minimum width `w`. -/
def formatHex (w n : Nat) : List Char := zfill w (natToHex n)

/-- `"{:0wd}".format(n)`: decimal, zero-padded to minimum width `w`. -/
def formatDec (w n : Nat) : List Char := zfill w (natToDec n)

/-- `"%X" % n`: uppercase hex, no padding. -/
def formatHexUpper (n : Nat) : List Char :=
  (natToHex n).map fun c => if 'a' ≤ c ∧ c ≤ 'f' then Char.ofNat (c.toNat - 32) else c

/-- Value of one hex digit character (either case), `none` otherwise. -/
def hexDigitVal (c : Char) : Option Nat :=
  if '0' ≤ c ∧ c ≤ '9' then some (c.toNat - 48)
  else if 'a' ≤ c ∧ c ≤ 'f' then some (c.toNat - 87)
  else if 'A' ≤ c ∧ c ≤ 'F' then some (c.toNat - 55)
  else none

/-- Value of one decimal digit character, `none` otherwise. -/
def decDigitVal (c : Char) : Option Nat :=
  if '0' ≤ c ∧ c ≤ '9' then some (c.toNat - 48) else none

/-- Core of Python's `int(s, 16)`: a non-empty run of hex digits;
anything else raises `ValueError`.  (The builtin also accepts surrounding
whitespace, a sign and an `0x` prefix; those never occur in this code.) -/
def pyIntHexDigits (s : List Char) : Except PyErr Nat :=
  match s with
  | [] => .error .valueError
  | _ =>
    match s.foldl (fun acc c => acc.bind fun a => (hexDigitVal c).map (16 * a + ·)) (some 0) with
    | some n => .ok n
    | none => .error .valueError

/-- Core of Python's `int(s)` (base 10), same conventions. -/
def pyIntDecDigits (s : List Char) : Except PyErr Nat :=
  match s with
  | [] => .error .valueError
  | _ =>
    match s.foldl (fun acc c => acc.bind fun a => (decDigitVal c).map (10 * a + ·)) (some 0) with
    | some n => .ok n
    | none => .error .valueError

/-- `int(v, 16)` applied to a `getValue()` result: `int(None, 16)` raises
`TypeError`. -/
def pyIntHex (v : Option (List Char)) : Except PyErr Nat :=
  match v with
  | none => .error .typeError
  | some s => pyIntHexDigits s

/-- `int(v)` applied to a `getValue()` result. -/
def pyIntDec (v : Option (List Char)) : Except PyErr Nat :=
  match v with
  | none => .error .typeError
  | some s => pyIntDecDigits s

/-!
## Model of `shlex.split` (POSIX mode, whitespace split)

`BoostInfoParser._parseLine` tokenizes key/value lines with `shlex.split`.
The lexer states: normal text, escape after `\`, inside `'...'`, inside
`"..."`, escape inside `"..."`.  In double quotes a backslash escapes only
`"` and `\` and is otherwise kept.  An unterminated quote or a dangling
escape raises `ValueError`, as `shlex` does.
-/

/-- `shlex.whitespace`: space, tab, carriage return, newline (note: a
smaller set than `str.strip`'s whitespace). -/
def shlexWs (c : Char) : Bool := c = ' ' || c = '\t' || c = '\r' || c = '\n'

inductive LexMode where
  | norm | esc | inS | inD | escD
deriving DecidableEq, Repr

/-- One-token-at-a-time run of the `shlex` lexer.  `inTok` records whether a
token (possibly empty, from quotes) is open; `cur` is its text so far and
`acc` the emitted tokens. -/
def shlexRun : List Char → LexMode → Bool → List Char → List (List Char) →
    Except PyErr (List (List Char))
  | [], .norm, inTok, cur, acc => .ok (if inTok then acc ++ [cur] else acc)
  | [], _, _, _, _ => .error .valueError
  | c :: cs, .norm, inTok, cur, acc =>
    if shlexWs c then
      if inTok then shlexRun cs .norm false [] (acc ++ [cur])
      else shlexRun cs .norm false [] acc
    else if c = '\'' then shlexRun cs .inS true cur acc
    else if c = '"' then shlexRun cs .inD true cur acc
    else if c = '\\' then shlexRun cs .esc true cur acc
    else shlexRun cs .norm true (cur ++ [c]) acc
  | c :: cs, .esc, _, cur, acc => shlexRun cs .norm true (cur ++ [c]) acc
  | c :: cs, .inS, _, cur, acc =>
    if c = '\'' then shlexRun cs .norm true cur acc
    else shlexRun cs .inS true (cur ++ [c]) acc
  | c :: cs, .inD, _, cur, acc =>
    if c = '"' then shlexRun cs .norm true cur acc
    else if c = '\\' then shlexRun cs .escD true cur acc
    else shlexRun cs .inD true (cur ++ [c]) acc
  | c :: cs, .escD, _, cur, acc =>
    if c = '"' ∨ c = '\\' then shlexRun cs .inD true (cur ++ [c]) acc
    else shlexRun cs .inD true (cur ++ ['\\', c]) acc

/-- `shlex.split(s)`. -/
def shlexSplit (s : List Char) : Except PyErr (List (List Char)) :=
  shlexRun s .norm false [] []

/-- The lexer mode after consuming `s` from mode `m` (the mode transitions
depend only on the characters, not on the token state). -/
def shlexModeEnd : List Char → LexMode → LexMode
  | [], m => m
  | c :: cs, .norm =>
    if shlexWs c then shlexModeEnd cs .norm
    else if c = '\'' then shlexModeEnd cs .inS
    else if c = '"' then shlexModeEnd cs .inD
    else if c = '\\' then shlexModeEnd cs .esc
    else shlexModeEnd cs .norm
  | c :: cs, .esc => shlexModeEnd cs .norm
  | c :: cs, .inS =>
    if c = '\'' then shlexModeEnd cs .norm else shlexModeEnd cs .inS
  | c :: cs, .inD =>
    if c = '"' then shlexModeEnd cs .norm
    else if c = '\\' then shlexModeEnd cs .escD
    else shlexModeEnd cs .inD
  | _ :: cs, .escD => shlexModeEnd cs .inD

/-!
## `BoostInfoTree` and `BoostInfoParser` (resolver.py lines 47-168)

A tree node holds an optional scalar value and an ordered dictionary from
key to the ordered list of subtrees created under that key
(`OrderedDict` of lists).  `lastKey` models the `lastChild` pointer: the
last subtree created in this node is the last entry of the bucket of
`lastKey`.  The root is created with `lastChild` pointing at the parser
object itself, and a fresh node with `lastChild = None`; entering either
of those "children" with `{` yields a context on which every subsequent
structural line raises `AttributeError` — both are modelled by the `dead`
context below.
-/

structure BoostInfoTree where
  value : Option (List Char)
  subTrees : List (List Char × List BoostInfoTree)
  lastKey : Option (List Char)

/-- Append `nt` to the bucket of `k`, creating the bucket at the end of the
ordered dictionary if `k` is new (`BoostInfoTree.createSubtree`'s update of
`subTrees`). -/
def addToDict (d : List (List Char × List BoostInfoTree)) (k : List Char)
    (nt : BoostInfoTree) : List (List Char × List BoostInfoTree) :=
  match d with
  | [] => [(k, [nt])]
  | (k', l) :: ds => if k' = k then (k', l ++ [nt]) :: ds else (k', l) :: addToDict ds k nt

/-- Ordered-dictionary lookup (`self.subTrees[key]`, `KeyError` as `none`). -/
def dictFind (d : List (List Char × List BoostInfoTree)) (k : List Char) :
    Option (List BoostInfoTree) :=
  match d with
  | [] => none
  | (k', l) :: ds => if k' = k then some l else dictFind ds k

/-- `BoostInfoTree.createSubtree(treeName, value)`. -/
def createSubtree (t : BoostInfoTree) (k : List Char) (v : Option (List Char)) :
    BoostInfoTree :=
  { value := t.value, subTrees := addToDict t.subTrees k ⟨v, [], none⟩, lastKey := some k }

/-- One saved parent in the context stack: its value, its dictionary with
the entered child removed from the end of bucket `key`, and `key` itself
(the parent's `lastChild` key at entry time). -/
structure PFrame where
  value : Option (List Char)
  subTrees : List (List Char × List BoostInfoTree)
  key : List Char

/-- Remove the last element of a list. -/
def splitLast (l : List BoostInfoTree) : Option (List BoostInfoTree × BoostInfoTree) :=
  match l with
  | [] => none
  | [x] => some ([], x)
  | x :: xs => (splitLast xs).map fun (ys, y) => (x :: ys, y)

/-- Replace the bucket of `k` by `l'` (used when removing the entered child). -/
def dictSet (d : List (List Char × List BoostInfoTree)) (k : List Char)
    (l' : List BoostInfoTree) : List (List Char × List BoostInfoTree) :=
  match d with
  | [] => []
  | (k', l) :: ds => if k' = k then (k', l') :: ds else (k', l) :: dictSet ds k l'

/-- Parser context.  `ok cur stack` is a live context (the current node with
the stack of its ancestors); `dead root` is a context object that is `None`
or the parser itself (any structural line on it raises `AttributeError`),
carrying the tree built so far; `crash e` is a raised exception aborting
`read`. -/
inductive PCtx where
  | ok (cur : BoostInfoTree) (stack : List PFrame)
  | dead (root : BoostInfoTree)
  | crash (e : PyErr)

/-- Close one open context: write `cur` back into its parent frame. -/
def popFrame (cur : BoostInfoTree) (f : PFrame) : BoostInfoTree :=
  { value := f.value, subTrees := addToDict f.subTrees f.key cur, lastKey := some f.key }

/-- Fold all open contexts back up to the root (what Python's in-place
mutation gives for free: the root always holds everything created). -/
def foldRoot (cur : BoostInfoTree) : List PFrame → BoostInfoTree
  | [] => cur
  | f :: fs => foldRoot (popFrame cur f) fs

/-- `{` line: `context = context.lastChild` (resolver.py lines 132-134). -/
def openBrace : PCtx → PCtx
  | .ok cur stack =>
    match cur.lastKey with
    | none => .dead (foldRoot cur stack)
    | some k =>
      match dictFind cur.subTrees k with
      | none => .dead (foldRoot cur stack)
      | some bucket =>
        match splitLast bucket with
        | none => .dead (foldRoot cur stack)
        | some (rest, child) =>
          .ok child (⟨cur.value, dictSet cur.subTrees k rest, k⟩ :: stack)
  | .dead _ => .crash .attributeError
  | .crash e => .crash e

/-- `}` line: `context = context.parent` (resolver.py lines 137-139); at the
root the parent is `None`, giving a dead context. -/
def closeBrace : PCtx → PCtx
  | .ok cur [] => .dead cur
  | .ok cur (f :: fs) => .ok (popFrame cur f) fs
  | .dead _ => .crash .attributeError
  | .crash e => .crash e

/-- Key/value line: `context.createSubtree(key, val)` (lines 142-150). -/
def addKeyVal (ctx : PCtx) (k : List Char) (v : Option (List Char)) : PCtx :=
  match ctx with
  | .ok cur stack => .ok (createSubtree cur k v) stack
  | .dead _ => .crash .attributeError
  | .crash e => .crash e

/-- Comment handling of `_parseLine` (lines 115-117): cut at the first `;`
and strip — only when a `;` occurs. -/
def commentStrip (s : List Char) : List Char :=
  match charIdx ';' s with
  | none => s
  | some i => pyStrip (s.take i)

theorem charIdx_lt_length {c : Char} {s : List Char} {i : Nat}
    (h : charIdx c s = some i) : i < s.length := by
  induction s generalizing i with
  | nil => simp [charIdx] at h
  | cons d ds ih =>
    simp only [charIdx] at h
    split at h
    · cases h
      simp
    · cases hi : charIdx c ds with
      | none => rw [hi] at h; exact Option.noConfusion h
      | some j =>
        rw [hi] at h
        cases h
        have := ih hi
        simp only [List.length_cons]
        omega

theorem dropWhile_length_le (p : Char → Bool) (l : List Char) :
    (l.dropWhile p).length ≤ l.length := by
  induction l with
  | nil => simp
  | cons a t ih =>
    by_cases h : p a <;> simp [List.dropWhile_cons, h] <;> omega

theorem pyStrip_length_le (s : List Char) : (pyStrip s).length ≤ s.length := by
  unfold pyStrip rstrip lstrip
  have h1 : (s.dropWhile pyWs).length ≤ s.length := dropWhile_length_le pyWs s
  have h2 := dropWhile_length_le pyWs (s.dropWhile pyWs).reverse
  simp only [List.length_reverse] at *
  omega

theorem commentStrip_length_le (s : List Char) : (commentStrip s).length ≤ s.length := by
  cases h : charIdx ';' s with
  | none => simp [commentStrip, h]
  | some i =>
    have h1 := pyStrip_length_le (s.take i)
    have h2 := s.length_take i
    simp only [commentStrip, h]
    omega

/-- One piece of a line for `_parseLine` (lines 130-150): the cases after
the same-line-brace split.  `_parseLine` recurses on the two halves of a
line holding a `{` at a positive position; on those halves the split case
cannot fire again — the first half holds no `{` at all (so it reaches the
`}`/key cases) and the second half starts with `{` (so `string[0] == '{'`
fires).  A direct line with no `{`, or starting with `{` or `}`, takes the
same cases.  This lets the recursion be written out flat. -/
def parseLinePart (s : List Char) (ctx : PCtx) : PCtx :=
  match ctx with
  | .crash e => .crash e
  | _ =>
    if hs : s = [] then ctx
    else if s.head hs = '{' then openBrace ctx
    else if s.head hs = '}' then closeBrace ctx
    else
      match shlexSplit s with
      | .error e => .crash e
      | .ok [] => .crash .indexError
      | .ok (k :: rest) => addKeyVal ctx k rest.head?

/-- The core of `BoostInfoParser._parseLine` (lines 118-150) on the
comment-stripped text: the same-line-brace split (lines 121-128) at the
first `{`, then — directly or on each half — the `{`, `}` and key/value
cases. -/
def parseLineCore (s : List Char) (ctx : PCtx) : PCtx :=
  match ctx with
  | .crash e => .crash e
  | _ =>
    if s = [] then ctx
    else
      match charIdx '{' s with
      | some p =>
        if 0 < p then parseLinePart (s.drop p) (parseLinePart (s.take p) ctx)
        else openBrace ctx
      | none => parseLinePart s ctx

/-- `BoostInfoParser._parseLine` (lines 113-150): comment handling
(lines 115-119), then the structural cases.  The comment strip is the
identity on the two halves of a split line (the stripped string holds no
`;`), so applying it once up front is exact. -/
def parseLine (s0 : List Char) (ctx : PCtx) : PCtx :=
  match ctx with
  | .crash e => .crash e
  | _ => parseLineCore (commentStrip s0) ctx

/-- `BoostInfoParser.read` over a list of lines: each line is stripped and
fed to `_parseLine`; at the end the root (with all still-open contexts, as
Python's mutation leaves them attached) is returned, unless an exception
was raised. -/
def parseLinesAux (lines : List (List Char)) (ctx : PCtx) : PCtx :=
  match lines with
  | [] => ctx
  | l :: ls => parseLinesAux ls (parseLine (pyStrip l) ctx)

/-- The empty root node (`BoostInfoTree()` with `lastChild` set to the
parser object, which `dead` models when entered). -/
def rootNode : BoostInfoTree := ⟨none, [], none⟩

/-- Parse a whole configuration given as its list of lines. -/
def parseLines (lines : List (List Char)) : Except PyErr BoostInfoTree :=
  match parseLinesAux lines (.ok rootNode []) with
  | .ok cur stack => .ok (foldRoot cur stack)
  | .dead root => .ok root
  | .crash e => .error e

/-!
## Bearers (`spi.py` lines 156-326)

Only the fields that take part in the string codec and in the bridge are
modelled (`cost`, `offset`, `bitrate`, `content` are carried unset by every
construction in this repository and never printed).
-/

/-- `DabBearer(ecc, eid, sid, scids=0, xpad=None, ...)` (spi.py line 178). -/
structure DabBearer where
  ecc : Nat
  eid : Nat
  sid : Nat
  scids : Nat
  xpad : Option Nat
deriving DecidableEq, Repr

/-- `DabBearer.__str__` (spi.py lines 237-241):
`dab:{gcc:03x}.{eid:04x}.{sid:04x}.{scids:01x}` with
`gcc = (eid >> 4 & 0xf00) + ecc`, plus `.{xpad:04x}` when set. -/
def DabBearer.str (b : DabBearer) : List Char :=
  (chars "dab:") ++ formatHex 3 (((b.eid >>> 4) &&& 0xf00) + b.ecc) ++ ['.'] ++
    formatHex 4 b.eid ++ ['.'] ++ formatHex 4 b.sid ++ ['.'] ++ formatHex 1 b.scids ++
    (match b.xpad with
     | none => []
     | some x => ['.'] ++ formatHex 4 x)

/-- `DabBearer.__eq__` (spi.py lines 246-247): canonical-string equality. -/
def DabBearer.eqv (a b : DabBearer) : Bool := a.str = b.str

/-- The character class `[\.(.+?)]` of the `fromstring` pattern
(spi.py line 225): one of `.` `(` `+` `?` `)`. -/
def dabOptClassChar (c : Char) : Bool :=
  c = '.' || c = '(' || c = '+' || c = '?' || c = ')'

/-- `re`'s `.`: any character but a newline. -/
def reAny (s : List Char) : Bool := s.all (· ≠ '\n')

/-- The anchored match of the `DabBearer.fromstring` pattern
`^dab:(.{3})\.(.{4})\.(.{4})\.(.{1})[\.(.+?)]{0,1}$` (spi.py line 225):
the literal `dab:`, three groups of exactly 3/4/4 arbitrary
(non-newline) characters separated by literal dots, one more dot, a
1-character group, and at most one character of the class `[\.(.+?)]`.
Note the class: the intended optional `.xxxx` xpad suffix does NOT parse —
the pattern admits at most one extra character.  Returns the four groups. -/
def dabMatch (s : List Char) : Option (List Char × List Char × List Char × List Char) :=
  if s.take 4 = (chars "dab:") then
    let r := s.drop 4
    let g1 := r.take 3
    let r2 := r.drop 3
    let g2 := (r2.drop 1).take 4
    let r3 := r2.drop 5
    let g3 := (r3.drop 1).take 4
    let r4 := r3.drop 5
    let g4 := (r4.drop 1).take 1
    let tail := r4.drop 2
    if g1.length = 3 ∧ reAny g1 ∧ r2.take 1 = ['.'] ∧
       g2.length = 4 ∧ reAny g2 ∧ r3.take 1 = ['.'] ∧
       g3.length = 4 ∧ reAny g3 ∧ r4.take 1 = ['.'] ∧
       g4.length = 1 ∧ reAny g4 ∧
       (tail = [] ∨ (tail.length = 1 ∧ tail.all dabOptClassChar)) then
      some (g1, g2, g3, g4)
    else none
  else none

/-- `DabBearer.fromstring` (spi.py lines 219-235).  On a match,
`ecc = int(g1[1:], 16)`, `eid/sid/scids` in hex; the xpad branch is dead
code (`matcher.groups()` always has exactly 4 entries), so `xpad = None`. -/
def DabBearer.fromstring (s : List Char) : Except PyErr DabBearer :=
  match dabMatch s with
  | none => .error .valueError
  | some (g1, g2, g3, g4) => do
    let ecc ← pyIntHexDigits (g1.drop 1)
    let eid ← pyIntHexDigits g2
    let sid ← pyIntHexDigits g3
    let scids ← pyIntHexDigits g4
    return ⟨ecc, eid, sid, scids, none⟩

/-- `FmBearer(ecc, pi, frequency, ...)` (spi.py line 251). -/
structure FmBearer where
  ecc : Nat
  pi : Nat
  frequency : Nat
deriving DecidableEq, Repr

/-- `FmBearer.__str__` (spi.py lines 295-297):
`fm:{gcc:03x}.{pi:04x}.{frequency:05d}` with
`gcc = (pi >> 4 & 0xf00) + ecc` and the frequency divided by 10
(floor division of Python 2 ints). -/
def FmBearer.str (b : FmBearer) : List Char :=
  (chars "fm:") ++ formatHex 3 (((b.pi >>> 4) &&& 0xf00) + b.ecc) ++ ['.'] ++
    formatHex 4 b.pi ++ ['.'] ++ formatDec 5 (b.frequency / 10)

/-- `FmBearer.__eq__` (spi.py lines 302-303). -/
def FmBearer.eqv (a b : FmBearer) : Bool := a.str = b.str

/-- Match of the unanchored pattern `fm:(.{3})\.(.{4})\.(.{5})`
(spi.py line 287) at the start of `s` (what `search` finds first on the
strings this code passes). -/
def fmMatchAt (s : List Char) : Option (List Char × List Char × List Char) :=
  if s.take 3 = (chars "fm:") then
    let r := s.drop 3
    let g1 := r.take 3
    let r2 := r.drop 3
    let g2 := (r2.drop 1).take 4
    let r3 := r2.drop 5
    let g3 := (r3.drop 1).take 5
    if g1.length = 3 ∧ reAny g1 ∧ r2.take 1 = ['.'] ∧
       g2.length = 4 ∧ reAny g2 ∧ r3.take 1 = ['.'] ∧
       g3.length = 5 ∧ reAny g3 then
      some (g1, g2, g3)
    else none
  else none

/-- `re.search`: the match at the leftmost position where one exists. -/
def fmSearch : List Char → Option (List Char × List Char × List Char)
  | [] => none
  | c :: cs =>
    match fmMatchAt (c :: cs) with
    | some g => some g
    | none => fmSearch cs

/-- `FmBearer.fromstring` (spi.py lines 281-293): `ecc = int(g1[1:], 16)`,
`pi` in hex, `frequency = int(g3) * 10`. -/
def FmBearer.fromstring (s : List Char) : Except PyErr FmBearer :=
  match fmSearch s with
  | none => .error .valueError
  | some (g1, g2, g3) => do
    let ecc ← pyIntHexDigits (g1.drop 1)
    let pi ← pyIntHexDigits g2
    let frequency ← pyIntDecDigits g3
    return ⟨ecc, pi, frequency * 10⟩

/-- `IpBearer(uri, ...)` (spi.py lines 305-326): `__str__` is the URI
itself and equality is string equality. -/
structure IpBearer where
  uri : List Char
deriving DecidableEq, Repr

def IpBearer.str (b : IpBearer) : List Char := b.uri

def IpBearer.eqv (a b : IpBearer) : Bool := a.str = b.str

/-- Modelled from the spec: `spi.py` defines no `fromstring` for
`IpBearer`; §4.2 of the spec defines the IpStream codec as "the literal
URI, no transformation", so decoding is the identity construction. -/
def IpBearer.fromstring (s : List Char) : IpBearer := ⟨s⟩

/-!
## The multiplex model builder (`parse_mux_config`, resolver.py lines 183-271)

Dictionary access `node["key"]` raises `KeyError`, `list[0]` raises
`IndexError` on an empty list; both are modelled by `Except`.
-/

/-- `tree[key]` (`BoostInfoTree.__getitem__`, lines 65-68): the bucket of
`key`, `KeyError` when absent. -/
def treeGet (t : BoostInfoTree) (k : List Char) : Except PyErr (List BoostInfoTree) :=
  match dictFind t.subTrees k with
  | none => .error (.keyError k)
  | some l => .ok l

/-- `list[0]`. -/
def index0 (l : List BoostInfoTree) : Except PyErr BoostInfoTree :=
  match l with
  | [] => .error .indexError
  | x :: _ => .ok x

/-- `tree[key][0]`, the usual access pattern of `parse_mux_config`. -/
def treeGet0 (t : BoostInfoTree) (k : List Char) : Except PyErr BoostInfoTree := do
  index0 (← treeGet t k)

/-- `tree[key][0].getValue()`. -/
def treeGetValue (t : BoostInfoTree) (k : List Char) : Except PyErr (Option (List Char)) := do
  return (← treeGet0 t k).value

/-- One eligible subchannel record (lines 194-200): name, type, and the
raw `getValue()` results for bitrate and inputuri (either may be `None`). -/
structure Subchannel where
  subchannel : List Char
  type : List Char
  bitrate : Option (List Char)
  inputuri : Option (List Char)
deriving DecidableEq, Repr

/-- The subchannel loop (lines 190-200): walk the keys of
`root["subchannels"][0]` in order and keep those whose `type` value is
`packet` or `enhancedpacket`, with their bitrate and inputuri values.
A subchannel with no `type` key raises `KeyError`; a `type` key with no
value is compared (unequal) as `None` is in Python. -/
def buildSubchannels (subsNode : BoostInfoTree) :
    Except PyErr (List Subchannel) :=
  subsNode.subTrees.foldlM
    (fun acc kv => do
      let node ← treeGet0 subsNode kv.1
      let typev ← treeGetValue node (chars "type")
      match typev with
      | none => return acc
      | some type =>
        if type = (chars "packet") ∨ type = (chars "enhancedpacket") then do
          let bitrate ← treeGetValue node (chars "bitrate")
          let inputuri ← treeGetValue node (chars "inputuri")
          return acc ++ [⟨kv.1, type, bitrate, inputuri⟩]
        else return acc)
    []

/-- One component record as the component loop appends it (lines 210-225):
a figtype-2 slideshow component carries only its service name; a
figtype-7/type-60 EPG component also carries its subchannel reference and
packet address. -/
inductive Component where
  | slideshow (service : Option (List Char))
  | epg (service : Option (List Char)) (subchannel : Option (List Char)) (address : Nat)
deriving DecidableEq, Repr

/-- The component loop (lines 202-225): `figtype` is optional (a missing
key gives `None`, line 206-207) but parsed as hex when present; figtype 2
components record their service; figtype 7 components are kept only when
their decimal `type` is 60, with service, subchannel and hex address.
Every other access failure propagates as an exception, as in Python. -/
def componentFigtype (node : BoostInfoTree) : Except PyErr (Option Nat) :=
  match dictFind node.subTrees (chars "figtype") with
  | none => .ok none
  | some bucket => do
    let n ← index0 bucket
    let v ← pyIntHex n.value
    return some v

def buildComponents (compsNode : BoostInfoTree) :
    Except PyErr (List Component) :=
  compsNode.subTrees.foldlM
    (fun acc kv => do
      let node ← treeGet0 compsNode kv.1
      let figtype ← componentFigtype node
      match figtype with
      | some 2 => do
        let service ← treeGetValue node (chars "service")
        return acc ++ [.slideshow service]
      | some 7 => do
        let typev ← treeGetValue node (chars "type")
        let typeN ← pyIntDec typev
        if typeN = 60 then do
          let service ← treeGetValue node (chars "service")
          let subchannel ← treeGetValue node (chars "subchannel")
          let address ← pyIntHex (← treeGetValue node (chars "address"))
          return acc ++ [.epg service subchannel address]
        else return acc
      | _ => return acc)
    []

/-- A built service record (lines 258-268). -/
structure Service where
  service : List Char
  label : Option (List Char)
  bearer : DabBearer
  hasEPG : Bool
  hasSlideshow : Bool
  EPGpacketSize : Option Nat
  EPGinputURI : Option (List Char)
  EPGpacketAddress : Option Nat
deriving DecidableEq, Repr

/-- The mutable flags and EPG fields of the service loop before and after
the component scan (lines 231-235 initialise them). -/
structure ScanState where
  hasEPG : Bool
  hasSlideshow : Bool
  EPGpacketSize : Option Nat
  EPGinputURI : Option (List Char)
  EPGpacketAddress : Option Nat
deriving DecidableEq, Repr

def ScanState.init : ScanState := ⟨false, false, none, none, none⟩

/-- The inner subchannel search for one matching EPG component
(lines 252-256): every eligible subchannel whose name equals the
component's reference overwrites the three EPG fields —
`EPGpacketAddress = int(address)`, `EPGpacketSize = int(bitrate) * 3`
(raising `ValueError`/`TypeError` on a bad or missing bitrate value),
`EPGinputURI = inputuri`. -/
def scanSubchannels (st : ScanState) (subs : List Subchannel)
    (sub : Option (List Char)) (address : Nat) : Except PyErr ScanState :=
  match subs with
  | [] => .ok st
  | sc :: rest =>
    if some sc.subchannel = sub then do
      let b ← pyIntDec sc.bitrate
      scanSubchannels
        { st with EPGpacketAddress := some address, EPGpacketSize := some (b * 3),
                  EPGinputURI := sc.inputuri } rest sub address
    else scanSubchannels st rest sub address

/-- The component scan of the service loop (lines 246-256): a figtype-2
component naming this service sets `hasSlideshow`; a figtype-7 component
naming it sets `hasEPG` and searches the eligible subchannels. -/
def scanComponents (st : ScanState) (comps : List Component)
    (subs : List Subchannel) (svc : List Char) : Except PyErr ScanState :=
  match comps with
  | [] => .ok st
  | .slideshow s :: rest =>
    scanComponents (if s = some svc then { st with hasSlideshow := true } else st) rest subs svc
  | .epg s sub addr :: rest =>
    if s = some svc then do
      let st ← scanSubchannels { st with hasEPG := true } subs sub addr
      scanComponents st rest subs svc
    else scanComponents st rest subs svc

/-- The per-service ECC (lines 238-244): a long SId (over 65535) carries
its own ECC in its top byte; a short SId takes the `ecc` key of the
service block when present (hex, `KeyError` falling back to the ensemble
ECC; any other failure propagates). -/
def service_ecc (svcNode : BoostInfoTree) (service_id ensemble_ecc : Nat) :
    Except PyErr Nat :=
  if service_id > 65535 then .ok (service_id >>> 24)
  else
    match dictFind svcNode.subTrees (chars "ecc") with
    | none => .ok ensemble_ecc
    | some bucket => do pyIntHex (← index0 bucket).value

/-- The service loop (lines 229-268). -/
def buildServices (svcsNode : BoostInfoTree) (comps : List Component)
    (subs : List Subchannel) (ensemble_ecc ensemble_id : Nat) :
    Except PyErr (List Service) :=
  svcsNode.subTrees.foldlM
    (fun acc kv => do
      let node ← treeGet0 svcsNode kv.1
      let service_id ← pyIntHex (← treeGetValue node (chars "id"))
      let ecc ← service_ecc node service_id ensemble_ecc
      let st ← scanComponents ScanState.init comps subs kv.1
      let label ← treeGetValue node (chars "label")
      return acc ++ [{
        service := kv.1
        label := label
        bearer := ⟨ecc, ensemble_id, service_id, 0, none⟩
        hasEPG := st.hasEPG
        hasSlideshow := st.hasSlideshow
        EPGpacketSize := st.EPGpacketSize
        EPGinputURI := st.EPGinputURI
        EPGpacketAddress := st.EPGpacketAddress }])
    []

/-- `parse_mux_config` (lines 183-271) on an already-parsed root tree:
ensemble ECC and id (hex), then the three section walks. -/
def parse_mux_config (root : BoostInfoTree) : Except PyErr (List Service) := do
  let ensemble_ecc ← pyIntHex (← treeGetValue (← treeGet0 root (chars "ensemble")) (chars "ecc"))
  let ensemble_id ← pyIntHex (← treeGetValue (← treeGet0 root (chars "ensemble")) (chars "id"))
  let subs ← buildSubchannels (← treeGet0 root (chars "subchannels"))
  let comps ← buildComponents (← treeGet0 root (chars "components"))
  buildServices (← treeGet0 root (chars "services")) comps subs ensemble_ecc ensemble_id

/-- The whole front of the pipeline: parse the configuration text (as its
list of lines) and build the service list. -/
def parse_mux_config_lines (lines : List (List Char)) : Except PyErr (List Service) := do
  parse_mux_config (← parseLines lines)

/-!
## DNS resolution and EPG aggregation (resolver.py lines 273-372)

The directory lookup itself (`pyradiodns.rdns.RadioDNS.lookup_dab`) is an
external collaborator; it is injected as a function from the four
formatted hex strings to an optional `DnsRecord` (any exception it raises
is caught at line 283-286, so `Option` covers it).
-/

/-- One application entry of a DNS record:
`{supported: sequence, servers: sequence}`.  Only emptiness of
`supported` matters (Python truthiness); its entries are opaque. -/
structure AppRecord where
  supported : List (List Char)
  servers : List (List Char)
deriving DecidableEq, Repr

/-- `{authorative_fqdn, applications}`.  `authorative_fqdn` is `none` when
the key is absent from the mapping; an application name maps through the
ordered association list. -/
structure DnsRecord where
  authorative_fqdn : Option (List Char)
  applications : List (List Char × AppRecord)
deriving DecidableEq, Repr

/-- `record["applications"][app]` as an option. -/
def DnsRecord.app (d : DnsRecord) (name : List Char) : Option AppRecord :=
  (d.applications.find? (fun kv => kv.1 = name)).map (·.2)

/-- A service with its lookup result attached (line 287:
`service["dns"] = result`). -/
structure ResolvedService where
  svc : Service
  dns : Option DnsRecord
deriving DecidableEq, Repr

/-- The GCC computed for the directory lookup (`resolve_dns`,
lines 278-281): a long SId gives `(sid >> 12 & 0xf00) + (sid >> 24)`
(the embedded country-code nibble plus the embedded top-byte ECC); a
short SId gives `(sid >> 4 & 0xf00) + ecc` from the bearer's ECC. -/
def resolve_dns_gcc (b : DabBearer) : Nat :=
  if b.sid > 65535 then ((b.sid >>> 12) &&& 0xf00) + (b.sid >>> 24)
  else ((b.sid >>> 4) &&& 0xf00) + b.ecc

/-- `resolve_dns` (lines 273-288) with the lookup injected: each service's
bearer yields a GCC and the four `"%X"`-formatted lookup arguments; a
lookup failure is `none`. -/
def resolve_dns
    (lookup : List Char → List Char → List Char → List Char → Option DnsRecord)
    (services : List Service) : List ResolvedService :=
  services.map fun s =>
    let b := s.bearer
    ⟨s, lookup (formatHexUpper (resolve_dns_gcc b)) (formatHexUpper b.eid)
         (formatHexUpper b.sid) (formatHexUpper b.scids)⟩

/-- The per-service head of the `resolve_epg` loop (lines 322-343):
`radioepg_fqdn` falls back to the empty string; each `try` block sets its
`supported` list and overwrites `app` whenever its application KEY is
present (even when the supported list is empty) — so `radiospi`, tried
second, wins whenever present. -/
def epgServiceHead (s : ResolvedService) :
    List Char × List (List Char) × List (List Char) × List Char :=
  let radioepg_fqdn :=
    match s.dns with
    | none => []
    | some d => d.authorative_fqdn.getD []
  let (hasEPG, app) :=
    match s.dns >>= (·.app (chars "radioepg")) with
    | some rec => (rec.supported, (chars "radioepg"))
    | none => ([], [])
  let (hasSPI, app) :=
    match s.dns >>= (·.app (chars "radiospi")) with
    | some rec => (rec.supported, (chars "radiospi"))
    | none => ([], app)
  (radioepg_fqdn, hasEPG, hasSPI, app)

/-- The `radioepg_fqdn` local of the loop. -/
def epgFqdn (s : ResolvedService) : List Char := (epgServiceHead s).1

/-- Whether a service passes the guard of line 345:
a truthy fqdn and a truthy supported list for one of the applications. -/
def epgContributes (s : ResolvedService) : Bool :=
  let (fq, hasEPG, hasSPI, _) := epgServiceHead s
  fq ≠ [] ∧ (hasEPG ≠ [] ∨ hasSPI ≠ [])

/-- The winning application string recorded for a service (`app` after
lines 333-343). -/
def epgWinningApp (s : ResolvedService) : List Char :=
  (epgServiceHead s).2.2.2

/-- The inner accumulation loop (lines 357-364): over ALL services, skip
those without a record or without the `authorative_fqdn` key; accessing
`applications[app]` is NOT guarded, so a record lacking the winning
application raises `KeyError`; a falsy supported list skips; an fqdn
match appends the bearer and overwrites the server list. -/
def epgCollectFrom (app fqdn : List Char) (services : List ResolvedService)
    (acc0 : List DabBearer × List (List Char)) :
    Except PyErr (List DabBearer × List (List Char)) :=
  services.foldlM
    (fun (acc : List DabBearer × List (List Char)) s =>
      match s.dns with
      | none => .ok acc
      | some d =>
        match d.authorative_fqdn with
        | none => .ok acc
        | some f =>
          match d.app app with
          | none => .error (.keyError app)
          | some rec =>
            if rec.supported = [] then .ok acc
            else if fqdn = f then .ok (acc.1 ++ [s.svc.bearer], rec.servers)
            else .ok acc)
    acc0

def epgCollect (services : List ResolvedService) (app fqdn : List Char) :
    Except PyErr (List DabBearer × List (List Char)) :=
  epgCollectFrom app fqdn services ([], [])

/-- One entry of the EPG bridge list (lines 365-368). -/
structure EpgEntry where
  fqdn : List Char
  bearers : List DabBearer
  servers : List (List Char)
  app : List Char
deriving DecidableEq, Repr

/-- The outer loop of `resolve_epg` (lines 322-368): services in order;
a contributing service whose fqdn is not yet listed creates one entry
from the inner accumulation. -/
def resolve_epg_aux (all : List ResolvedService) :
    List ResolvedService → List EpgEntry → Except PyErr (List EpgEntry)
  | [], acc => .ok acc
  | s :: rest, acc =>
    if epgContributes s then
      if acc.any (fun e => epgFqdn s = e.fqdn) then resolve_epg_aux all rest acc
      else
        match epgCollect all (epgWinningApp s) (epgFqdn s) with
        | .error e => .error e
        | .ok bs =>
          resolve_epg_aux all rest (acc ++ [⟨epgFqdn s, bs.1, bs.2, epgWinningApp s⟩])
    else resolve_epg_aux all rest acc

/-- The aggregation core of `resolve_epg` (lines 317-372) on an
already-resolved service list (the list `resolve_dns` returns; the value
handed to the callback). -/
def resolve_epg (services : List ResolvedService) : Except PyErr (List EpgEntry) :=
  resolve_epg_aux services services []

/-!
## Concrete configurations and service lists used by the claim theorems
-/

/-- Scenario A of the spec: a packet subchannel `(bitrate 8, inputuri
epg.dat)`, a figtype-7/type-60 component on it for service `SRV1` with
address `0x1`, and service `SRV1` with id `0x4001`. -/
def cfgScenarioA : List (List Char) :=
  [chars "ensemble \x7b", (chars "ecc e1"), (chars "id 4fff"), (chars "\x7d"),
   (chars "subchannels \x7b"), (chars "sub-epg \x7b"), (chars "type packet"), (chars "bitrate 8"),
   (chars "inputuri epg.dat"), (chars "\x7d"), (chars "\x7d"),
   (chars "components \x7b"), (chars "comp-epg \x7b"), (chars "figtype 7"), (chars "type 60"),
   (chars "service SRV1"), (chars "subchannel sub-epg"), (chars "address 1"), (chars "\x7d"), (chars "\x7d"),
   (chars "services \x7b"), (chars "SRV1 \x7b"), (chars "id 4001"), (chars "label TestRadio"),
   (chars "\x7d"), (chars "\x7d")]

/-- As Scenario A, but the referenced subchannel is declared `type audio`,
so it is not an eligible (packet/enhanced-packet) subchannel. -/
def cfgEpgAudioSub : List (List Char) :=
  [chars "ensemble \x7b", (chars "ecc e1"), (chars "id 4fff"), (chars "\x7d"),
   (chars "subchannels \x7b"), (chars "sub-x \x7b"), (chars "type audio"), (chars "bitrate 128"),
   (chars "\x7d"), (chars "\x7d"),
   (chars "components \x7b"), (chars "comp-x \x7b"), (chars "figtype 7"), (chars "type 60"),
   (chars "service SRV1"), (chars "subchannel sub-x"), (chars "address 1"), (chars "\x7d"), (chars "\x7d"),
   (chars "services \x7b"), (chars "SRV1 \x7b"), (chars "id 4001"), (chars "label T"), (chars "\x7d"), (chars "\x7d")]

/-- A complete configuration whose only subchannel is `type audio` and has
neither `bitrate` nor `inputuri`. -/
def cfgAudioNoBitrate : List (List Char) :=
  [chars "ensemble \x7b", (chars "ecc e1"), (chars "id 4fff"), (chars "\x7d"),
   (chars "subchannels \x7b"), (chars "sub-a \x7b"), (chars "type audio"), (chars "\x7d"), (chars "\x7d"),
   (chars "components \x7b"), (chars "c0 \x7b"), (chars "figtype 2"), (chars "service SRV1"),
   (chars "\x7d"), (chars "\x7d"),
   (chars "services \x7b"), (chars "SRV1 \x7b"), (chars "id 4001"), (chars "label T"), (chars "\x7d"), (chars "\x7d")]

/-- As `cfgAudioNoBitrate` but with a `packet` subchannel lacking `bitrate`. -/
def cfgPacketNoBitrate : List (List Char) :=
  [chars "ensemble \x7b", (chars "ecc e1"), (chars "id 4fff"), (chars "\x7d"),
   (chars "subchannels \x7b"), (chars "sub-a \x7b"), (chars "type packet"), (chars "inputuri x"),
   (chars "\x7d"), (chars "\x7d"),
   (chars "components \x7b"), (chars "\x7d"),
   (chars "services \x7b"), (chars "SRV1 \x7b"), (chars "id 4001"), (chars "label T"), (chars "\x7d"), (chars "\x7d")]

/-- Ensemble block lacking `ecc`. -/
def cfgNoEcc : List (List Char) :=
  [chars "ensemble \x7b", (chars "id 4fff"), (chars "\x7d"),
   (chars "subchannels \x7b"), (chars "\x7d"), (chars "components \x7b"), (chars "\x7d"),
   (chars "services \x7b"), (chars "SRV1 \x7b"), (chars "id 4001"), (chars "label T"), (chars "\x7d"), (chars "\x7d")]

/-- A subchannel block lacking `type`. -/
def cfgNoType : List (List Char) :=
  [chars "ensemble \x7b", (chars "ecc e1"), (chars "id 4fff"), (chars "\x7d"),
   (chars "subchannels \x7b"), (chars "sub-a \x7b"), (chars "bitrate 8"), (chars "\x7d"), (chars "\x7d"),
   (chars "components \x7b"), (chars "\x7d"),
   (chars "services \x7b"), (chars "SRV1 \x7b"), (chars "id 4001"), (chars "label T"), (chars "\x7d"), (chars "\x7d")]

/-- A service block lacking `label`. -/
def cfgNoLabel : List (List Char) :=
  [chars "ensemble \x7b", (chars "ecc e1"), (chars "id 4fff"), (chars "\x7d"),
   (chars "subchannels \x7b"), (chars "\x7d"), (chars "components \x7b"), (chars "\x7d"),
   (chars "services \x7b"), (chars "SRV1 \x7b"), (chars "id 4001"), (chars "\x7d"), (chars "\x7d")]

/-- A service block lacking `id`. -/
def cfgNoId : List (List Char) :=
  [chars "ensemble \x7b", (chars "ecc e1"), (chars "id 4fff"), (chars "\x7d"),
   (chars "subchannels \x7b"), (chars "\x7d"), (chars "components \x7b"), (chars "\x7d"),
   (chars "services \x7b"), (chars "SRV1 \x7b"), (chars "label T"), (chars "\x7d"), (chars "\x7d")]

/-- All mandatory keys of §4.3 present, but a figtype-7 component lacks its
inner `type` key. -/
def cfgFig7NoType : List (List Char) :=
  [chars "ensemble \x7b", (chars "ecc e1"), (chars "id 4fff"), (chars "\x7d"),
   (chars "subchannels \x7b"), (chars "\x7d"),
   (chars "components \x7b"), (chars "c0 \x7b"), (chars "figtype 7"), (chars "service SRV1"),
   (chars "\x7d"), (chars "\x7d"),
   (chars "services \x7b"), (chars "SRV1 \x7b"), (chars "id 4001"), (chars "label T"), (chars "\x7d"), (chars "\x7d")]

/-- A tree holding only a filled ensemble section — no `subchannels`. -/
def treeOnlyEnsemble : BoostInfoTree :=
  ⟨none,
   [(chars "ensemble", [⟨none, [(chars "ecc", [⟨some (chars "e1"), [], none⟩]),
                                (chars "id", [⟨some (chars "4fff"), [], none⟩])], none⟩])],
   none⟩

/-- Ensemble and an empty subchannels section — no `components`. -/
def treeNoComponents : BoostInfoTree :=
  ⟨none,
   [(chars "ensemble", [⟨none, [(chars "ecc", [⟨some (chars "e1"), [], none⟩]),
                                (chars "id", [⟨some (chars "4fff"), [], none⟩])], none⟩]),
    (chars "subchannels", [⟨none, [], none⟩])],
   none⟩

/-- Ensemble, subchannels and components sections — no `services`. -/
def treeEnsembleOnly : BoostInfoTree :=
  ⟨none,
   [(chars "ensemble", [⟨none, [(chars "ecc", [⟨some (chars "e1"), [], none⟩]),
                                (chars "id", [⟨some (chars "4fff"), [], none⟩])], none⟩]),
    (chars "subchannels", [⟨none, [], none⟩]),
    (chars "components", [⟨none, [], none⟩])],
   none⟩

/-- A bearer for EPG-aggregation scenarios. -/
def mkTestService (name : List Char) (sid : Nat) : Service :=
  ⟨name, some name, ⟨0xe1, 0x4fff, sid, 0, none⟩, false, false, none, none, none⟩

/-- First service of the C4/C5 scenario: fqdn `x.example`, only
`radiospi`, supported. -/
def svcSpiOnly : ResolvedService :=
  ⟨mkTestService (chars "S1") 0x4001,
   some ⟨some (chars "x.example"),
     [(chars "radiospi", ⟨[chars "t"], [chars "srvA"]⟩)]⟩⟩

/-- Second service of the C4/C5 scenario: same fqdn, `radioepg` supported,
`radiospi` key present with an EMPTY supported list. -/
def svcEpgPlusEmptySpi : ResolvedService :=
  ⟨mkTestService (chars "S2") 0x4002,
   some ⟨some (chars "x.example"),
     [(chars "radioepg", ⟨[chars "t"], [chars "srvB"]⟩),
      (chars "radiospi", ⟨[], [chars "srvC"]⟩)]⟩⟩

/-- Two services on one fqdn, both with `radioepg` supported. -/
def svcEpgGood1 : ResolvedService :=
  ⟨mkTestService (chars "G1") 0x4001,
   some ⟨some (chars "y.example"),
     [(chars "radioepg", ⟨[chars "t"], [chars "srvA"]⟩)]⟩⟩

def svcEpgGood2 : ResolvedService :=
  ⟨mkTestService (chars "G2") 0x4002,
   some ⟨some (chars "y.example"),
     [(chars "radioepg", ⟨[chars "t"], [chars "srvB"]⟩)]⟩⟩

/-!
## Helper predicates and lemmas for the claims
-/

/-- Whether a component is a figtype-7/type-60 (EPG) component naming the
given service. -/
def Component.isEpgFor (svc : List Char) : Component → Bool
  | .epg s _ _ => s = some svc
  | .slideshow _ => false

/-- The EPG packet fields of a scan state are populated together (the
input URI may stay unset when the subchannel's `inputuri` key has no
value, so it only implies the others). -/
def epgFieldsTogether (st : ScanState) : Prop :=
  (st.EPGpacketSize.isSome ↔ st.EPGpacketAddress.isSome) ∧
  (st.EPGinputURI.isSome → st.EPGpacketSize.isSome)

/-- The eligible (packet/enhanced-packet) subchannel list a configuration
text produces. -/
def eligibleSubchannels (lines : List (List Char)) : Except PyErr (List Subchannel) := do
  buildSubchannels (← treeGet0 (← parseLines lines) (chars "subchannels"))

theorem scanSubchannels_props {subs : List Subchannel} {st st' : ScanState}
    {sub : Option (List Char)} {addr : Nat}
    (h : scanSubchannels st subs sub addr = .ok st') :
    st'.hasEPG = st.hasEPG ∧ st'.hasSlideshow = st.hasSlideshow ∧
    (epgFieldsTogether st → epgFieldsTogether st') := by
  induction subs generalizing st with
  | nil =>
    simp only [scanSubchannels] at h
    cases h
    exact ⟨rfl, rfl, fun hi => hi⟩
  | cons sc rest ih =>
    simp only [scanSubchannels] at h
    split at h
    · cases hb : pyIntDec sc.bitrate with
      | error e => rw [hb] at h; cases h
      | ok b =>
        rw [hb] at h
        have this' := ih h
        refine ⟨this'.1, this'.2.1, fun _ => this'.2.2 ?_⟩
        constructor
        · simp
        · intro _; simp
    · exact ih h

theorem scanComponents_props {comps : List Component} {subs : List Subchannel}
    {svc : List Char} {st st' : ScanState}
    (h : scanComponents st comps subs svc = .ok st') :
    st'.hasEPG = (st.hasEPG || comps.any (Component.isEpgFor svc)) ∧
    (epgFieldsTogether st → epgFieldsTogether st') := by
  induction comps generalizing st with
  | nil =>
    simp only [scanComponents] at h
    cases h
    simp
  | cons c rest ih =>
    cases c with
    | slideshow s =>
      simp only [scanComponents] at h
      have this' := ih h
      constructor
      · rw [this'.1]
        by_cases hs : s = some svc <;> simp [hs, Component.isEpgFor]
      · intro hi
        refine this'.2 ?_
        split <;> simpa using hi
    | epg s sub addr =>
      simp only [scanComponents] at h
      split at h
      · rename_i hs
        cases hscan : scanSubchannels { st with hasEPG := true } subs sub addr with
        | error e => rw [hscan] at h; cases h
        | ok stm =>
          rw [hscan] at h
          have h1 := scanSubchannels_props hscan
          have h2 := ih h
          constructor
          · rw [h2.1, h1.1]
            simp [Component.isEpgFor, hs]
          · intro hi
            refine h2.2 (h1.2.2 ?_)
            simpa [epgFieldsTogether] using hi
      · rename_i hs
        have this' := ih h
        constructor
        · rw [this'.1]
          simp [Component.isEpgFor, hs]
        · exact this'.2

theorem resolve_epg_aux_distinct {all : List ResolvedService} :
    ∀ {pending : List ResolvedService} {acc entries : List EpgEntry},
    resolve_epg_aux all pending acc = .ok entries →
    acc.Pairwise (fun a b => a.fqdn ≠ b.fqdn) →
    entries.Pairwise (fun a b => a.fqdn ≠ b.fqdn) := by
  intro pending
  induction pending with
  | nil =>
    intro acc entries h hacc
    simp only [resolve_epg_aux] at h
    cases h
    exact hacc
  | cons s rest ih =>
    intro acc entries h hacc
    simp only [resolve_epg_aux] at h
    split at h
    · split at h
      · exact ih h hacc
      · rename_i hany
        cases hc : epgCollect all (epgWinningApp s) (epgFqdn s) with
        | error e => rw [hc] at h; cases h
        | ok bs =>
          rw [hc] at h
          refine ih h ?_
          rw [List.pairwise_append]
          refine ⟨hacc, by simp, ?_⟩
          intro a ha b hb
          simp only [List.mem_singleton] at hb
          subst hb
          simp only [List.any_eq_true, decide_eq_true_eq, not_exists, not_and] at hany
          intro heq
          exact hany a ha heq.symm
    · exact ih h hacc

theorem parseLinePart_dead (t : List Char) (r : BoostInfoTree) (h : t ≠ []) :
    ∃ e, parseLinePart t (.dead r) = .crash e := by
  unfold parseLinePart
  rw [dif_neg h]
  by_cases h1 : t.head h = '{'
  · rw [if_pos h1]; exact ⟨.attributeError, rfl⟩
  · rw [if_neg h1]
    by_cases h2 : t.head h = '}'
    · rw [if_pos h2]; exact ⟨.attributeError, rfl⟩
    · rw [if_neg h2]
      cases hs : shlexSplit t with
      | error e => exact ⟨e, rfl⟩
      | ok l =>
        cases l with
        | nil => exact ⟨.indexError, rfl⟩
        | cons k rest => exact ⟨.attributeError, rfl⟩

theorem parseLineCore_dead (s : List Char) (r : BoostInfoTree) (h : s ≠ []) :
    ∃ e, parseLineCore s (.dead r) = .crash e := by
  have hred : parseLineCore s (.dead r) =
      (if s = [] then (PCtx.dead r) else
        match charIdx '{' s with
        | some p =>
          if 0 < p then parseLinePart (s.drop p) (parseLinePart (s.take p) (.dead r))
          else openBrace (.dead r)
        | none => parseLinePart s (.dead r)) := rfl
  rw [hred, if_neg h]
  cases hb : charIdx '{' s with
  | some p =>
    show ∃ e, (if 0 < p then parseLinePart (s.drop p) (parseLinePart (s.take p) (.dead r))
        else openBrace (.dead r)) = PCtx.crash e
    by_cases hp : 0 < p
    · rw [if_pos hp]
      have htake : s.take p ≠ [] := by
        rw [Ne, List.take_eq_nil_iff]
        push_neg
        exact ⟨by omega, h⟩
      obtain ⟨e1, he1⟩ := parseLinePart_dead (s.take p) r htake
      rw [he1]
      exact ⟨e1, rfl⟩
    · rw [if_neg hp]
      exact ⟨.attributeError, rfl⟩
  | none => exact parseLinePart_dead s r h

theorem parseLinesAux_crash (ls : List (List Char)) (e : PyErr) :
    parseLinesAux ls (.crash e) = .crash e := by
  induction ls with
  | nil => rfl
  | cons l rest ih =>
    show parseLinesAux rest (parseLine (pyStrip l) (.crash e)) = .crash e
    exact ih

theorem except_bind_ok {ε α β : Type} {x : Except ε α} {f : α → Except ε β} {b : β}
    (h : (x >>= f) = .ok b) : ∃ a, x = .ok a ∧ f a = .ok b := by
  cases x with
  | error e => cases h
  | ok a => exact ⟨a, rfl, h⟩

/-- Whether the inner accumulation loop (lines 357-364) keeps a service:
a record with the authoritative-fqdn key, a truthy supported list for the
queried application, and the matching fqdn. -/
def epgQualifies (app fqdn : List Char) (s : ResolvedService) : Bool :=
  match s.dns with
  | none => false
  | some d =>
    match d.authorative_fqdn with
    | none => false
    | some f =>
      match d.app app with
      | none => false
      | some rec => rec.supported ≠ [] ∧ fqdn = f

/-- The servers a qualifying service contributes. -/
def epgServersOf (app : List Char) (s : ResolvedService) : List (List Char) :=
  match s.dns >>= (·.app app) with
  | none => []
  | some rec => rec.servers

theorem epgCollect_characterization (app fqdn : List Char) :
    ∀ (services : List ResolvedService) (bearers acc1 : List DabBearer)
      (servers acc2 : List (List Char)),
    epgCollectFrom app fqdn services (acc1, acc2) = .ok (bearers, servers) →
    bearers = acc1 ++ (services.filter (epgQualifies app fqdn)).map (·.svc.bearer) ∧
    servers = ((services.filter (epgQualifies app fqdn)).map (epgServersOf app)).getLastD acc2 := by
  intro services
  induction services with
  | nil =>
    intro bearers acc1 servers acc2 h
    simp only [epgCollectFrom, List.foldlM] at h
    cases h
    simp [List.filter]
  | cons s rest ih =>
    intro bearers acc1 servers acc2 h
    simp only [epgCollectFrom, List.foldlM_cons] at h
    cases hd : s.dns with
    | none =>
      rw [hd] at h
      dsimp only [] at h
      have hrec : epgCollectFrom app fqdn rest (acc1, acc2) = .ok (bearers, servers) := h
      have := ih bearers acc1 servers acc2 hrec
      simpa [List.filter_cons, epgQualifies, hd] using this
    | some d =>
      rw [hd] at h
      dsimp only [] at h
      cases hf : d.authorative_fqdn with
      | none =>
        rw [hf] at h
        dsimp only [] at h
        have hrec : epgCollectFrom app fqdn rest (acc1, acc2) = .ok (bearers, servers) := h
        have := ih bearers acc1 servers acc2 hrec
        simpa [List.filter_cons, epgQualifies, hd, hf] using this
      | some f =>
        rw [hf] at h
        dsimp only [] at h
        cases ha : d.app app with
        | none =>
          rw [ha] at h
          dsimp only [] at h
          exact Except.noConfusion h
        | some rec =>
          rw [ha] at h
          dsimp only [] at h
          by_cases hsup : rec.supported = []
          · rw [if_pos hsup] at h
            have hrec : epgCollectFrom app fqdn rest (acc1, acc2)
                = .ok (bearers, servers) := h
            have := ih bearers acc1 servers acc2 hrec
            simpa [List.filter_cons, epgQualifies, hd, hf, ha, hsup] using this
          · by_cases hq : fqdn = f
            · rw [if_neg hsup, if_pos hq] at h
              have hrec : epgCollectFrom app fqdn rest (acc1 ++ [s.svc.bearer], rec.servers)
                  = .ok (bearers, servers) := h
              have := ih bearers (acc1 ++ [s.svc.bearer]) servers rec.servers hrec
              constructor
              · rw [this.1]
                simp [List.filter_cons, epgQualifies, hd, hf, ha, hsup, hq]
              · rw [this.2]
                have hqual : epgQualifies app fqdn s = true := by
                  simp [epgQualifies, hd, hf, ha, hsup, hq]
                have hserv : epgServersOf app s = rec.servers := by
                  simp [epgServersOf, hd, ha, Option.bind]
                rw [List.filter_cons_of_pos hqual]
                rw [List.map_cons, List.getLastD_cons, hserv]
            · rw [if_neg hsup, if_neg hq] at h
              have hrec : epgCollectFrom app fqdn rest (acc1, acc2)
                  = .ok (bearers, servers) := h
              have := ih bearers acc1 servers acc2 hrec
              simpa [List.filter_cons, epgQualifies, hd, hf, ha, hsup, hq] using this

/-!
## Round-trip of the bearer codecs without xpad (supporting C2)

Generic theory of the fuel-driven digit writers (`natToHexAux`,
`natToDecAux`) and of the digit-fold used by `pyIntHexDigits` /
`pyIntDecDigits`, specialised to bases 16 and 10, and then the positive
half of the C2 analysis: `fromstring (str b) = b` for every in-range
`DabBearer` without xpad, and the corresponding round-trips for
`FmBearer` (exact up to the frequency's lost last decimal digit) and
`IpBearer`.
-/

/-- Both digit writers are instances of one generic writer. -/
def digitsAux (B : Nat) (dig : Nat → Char) : Nat → Nat → List Char → List Char
  | 0, _, acc => acc
  | fuel + 1, n, acc =>
    if n < B then dig n :: acc
    else digitsAux B dig fuel (n / B) (dig (n % B) :: acc)

/-- The accumulator step of `pyIntHexDigits` / `pyIntDecDigits`,
abstracted over the base and the digit reader. -/
def gFold (B : Nat) (dv : Char → Option Nat) : Option Nat → Char → Option Nat :=
  fun acc c => acc.bind fun a => (dv c).map (B * a + ·)

theorem gFold_some (B : Nat) (dv : Char → Option Nat) (a : Nat) (c : Char) :
    gFold B dv (some a) c = (dv c).map (B * a + ·) := rfl

theorem natToHexAux_eq_digitsAux : ∀ fuel n acc,
    natToHexAux fuel n acc = digitsAux 16 hexDigitChar fuel n acc := by
  intro fuel
  induction fuel with
  | zero => intro n acc; rfl
  | succ m ih =>
    intro n acc
    show (if n < 16 then _ else natToHexAux m (n / 16) _) =
      (if n < 16 then _ else digitsAux 16 hexDigitChar m (n / 16) _)
    by_cases h : n < 16
    · rw [if_pos h, if_pos h]
    · rw [if_neg h, if_neg h, ih]

theorem natToDecAux_eq_digitsAux : ∀ fuel n acc,
    natToDecAux fuel n acc = digitsAux 10 (fun m => Char.ofNat (48 + m)) fuel n acc := by
  intro fuel
  induction fuel with
  | zero => intro n acc; rfl
  | succ m ih =>
    intro n acc
    show (if n < 10 then _ else natToDecAux m (n / 10) _) =
      (if n < 10 then _ else digitsAux 10 _ m (n / 10) _)
    by_cases h : n < 10
    · rw [if_pos h, if_pos h]
    · rw [if_neg h, if_neg h, ih]

/-- The accumulator is only appended to. -/
theorem digitsAux_acc (B : Nat) (dig : Nat → Char) : ∀ fuel n acc,
    digitsAux B dig fuel n acc = digitsAux B dig fuel n [] ++ acc := by
  intro fuel
  induction fuel with
  | zero => intro n acc; rfl
  | succ m ih =>
    intro n acc
    show (if n < B then _ else _) = (if n < B then _ else _) ++ acc
    by_cases h : n < B
    · rw [if_pos h, if_pos h]; rfl
    · rw [if_neg h, if_neg h, ih, ih (n / B) [dig (n % B)], List.append_assoc]
      rfl

/-- The written digits are digits. -/
theorem digitsAux_mem (B : Nat) (dig : Nat → Char) (hB : 0 < B) : ∀ fuel n acc c,
    c ∈ digitsAux B dig fuel n acc → c ∈ acc ∨ ∃ m, m < B ∧ c = dig m := by
  intro fuel
  induction fuel with
  | zero => intro n acc c hc; exact .inl hc
  | succ f ih =>
    intro n acc c hc
    by_cases h : n < B
    · rw [show digitsAux B dig (f + 1) n acc = dig n :: acc from if_pos h] at hc
      rcases List.mem_cons.1 hc with h' | h'
      · exact .inr ⟨n, h, h'⟩
      · exact .inl h'
    · rw [show digitsAux B dig (f + 1) n acc =
          digitsAux B dig f (n / B) (dig (n % B) :: acc) from if_neg h] at hc
      rcases ih (n / B) _ c hc with h' | h'
      · rcases List.mem_cons.1 h' with h'' | h''
        · exact .inr ⟨n % B, Nat.mod_lt _ hB, h''⟩
        · exact .inl h''
      · exact .inr h'

/-- A number is below the base power given by its digit count. -/
theorem digitsAux_lt (B : Nat) (dig : Nat → Char) (hB : 1 < B) : ∀ fuel n, n < fuel →
    n < B ^ (digitsAux B dig fuel n []).length := by
  intro fuel
  induction fuel with
  | zero => intro n hn; omega
  | succ f ih =>
    intro n hn
    by_cases h : n < B
    · rw [show digitsAux B dig (f + 1) n [] = [dig n] from if_pos h]
      simpa using h
    · rw [show digitsAux B dig (f + 1) n [] =
          digitsAux B dig f (n / B) [dig (n % B)] from if_neg h,
        digitsAux_acc]
      have hdiv : n / B < f := by
        have h1 : n / B < n := Nat.div_lt_self (by omega) hB
        omega
      have hrec := ih (n / B) hdiv
      have hlen : (digitsAux B dig f (n / B) [] ++ [dig (n % B)]).length =
          (digitsAux B dig f (n / B) []).length + 1 := by simp
      rw [hlen, pow_succ]
      have h2 : n % B < B := Nat.mod_lt _ (by omega)
      calc n = B * (n / B) + n % B := (Nat.div_add_mod n B).symm
        _ < B * (n / B) + B := by omega
        _ = (n / B + 1) * B := by ring
        _ ≤ B ^ (digitsAux B dig f (n / B) []).length * B :=
            Nat.mul_le_mul_right B (by omega)

/-- Digit-count upper bound from a power bound. -/
theorem digitsAux_length_le (B : Nat) (dig : Nat → Char) (hB : 1 < B) : ∀ fuel n k, n < fuel →
    n < B ^ k → 1 ≤ k → (digitsAux B dig fuel n []).length ≤ k := by
  intro fuel
  induction fuel with
  | zero => intro n k hn; omega
  | succ f ih =>
    intro n k hn hnk hk
    by_cases h : n < B
    · rw [show digitsAux B dig (f + 1) n [] = [dig n] from if_pos h]
      simpa using hk
    · rw [show digitsAux B dig (f + 1) n [] =
          digitsAux B dig f (n / B) [dig (n % B)] from if_neg h,
        digitsAux_acc]
      have hdiv : n / B < f := by
        have h1 : n / B < n := Nat.div_lt_self (by omega) hB
        omega
      have hk2 : 2 ≤ k := by
        by_contra hlt
        have hk1 : k = 1 := by omega
        rw [hk1, pow_one] at hnk
        omega
      have hpow : B * B ^ (k - 1) = B ^ k := by
        rw [← Nat.pow_succ']
        congr 1
        omega
      have hq : n / B < B ^ (k - 1) := Nat.div_lt_of_lt_mul (by omega)
      have := ih (n / B) (k - 1) hdiv hq (by omega)
      have hlen : (digitsAux B dig f (n / B) [] ++ [dig (n % B)]).length =
          (digitsAux B dig f (n / B) []).length + 1 := by simp
      omega

/-- At least one digit is always written. -/
theorem digitsAux_ne_nil (B : Nat) (dig : Nat → Char) : ∀ fuel n, n < fuel →
    digitsAux B dig fuel n [] ≠ [] := by
  intro fuel
  induction fuel with
  | zero => intro n hn; omega
  | succ f ih =>
    intro n hn
    by_cases h : n < B
    · rw [show digitsAux B dig (f + 1) n [] = [dig n] from if_pos h]
      simp
    · rw [show digitsAux B dig (f + 1) n [] =
          digitsAux B dig f (n / B) [dig (n % B)] from if_neg h,
        digitsAux_acc]
      simp

/-- Folding the digit reader over any suffix of the written digits
recovers the corresponding remainder of the value. -/
theorem digitsAux_fold_drop (B : Nat) (dig : Nat → Char) (dv : Char → Option Nat)
    (hB : 1 < B) (hdv : ∀ m, m < B → dv (dig m) = some m) : ∀ fuel n a k, n < fuel →
    ((digitsAux B dig fuel n []).drop k).foldl (gFold B dv) (some a) =
      some (a * B ^ ((digitsAux B dig fuel n []).length - k) +
        n % B ^ ((digitsAux B dig fuel n []).length - k)) := by
  intro fuel
  induction fuel with
  | zero => intro n a k hn; omega
  | succ f ih =>
    intro n a k hn
    by_cases h : n < B
    · rw [show digitsAux B dig (f + 1) n [] = [dig n] from if_pos h]
      match k with
      | 0 =>
        rw [List.drop_zero, List.foldl_cons, List.foldl_nil, gFold_some, hdv n h,
          Option.map_some']
        congr 1
        have hmod : n % B ^ 1 = n := by
          rw [pow_one]; exact Nat.mod_eq_of_lt h
        rw [show ([dig n].length - 0 : Nat) = 1 by rfl, hmod, pow_one]
        ring
      | k + 1 =>
        rw [List.drop_succ_cons, List.drop_nil, List.foldl_nil]
        rw [show ([dig n].length - (k + 1) : Nat) = 0 by simp, pow_zero]
        simp [Nat.mod_one]
    · rw [show digitsAux B dig (f + 1) n [] =
          digitsAux B dig f (n / B) [dig (n % B)] from if_neg h,
        digitsAux_acc]
      have hdiv : n / B < f := by
        have h1 : n / B < n := Nat.div_lt_self (by omega) hB
        omega
      set core := digitsAux B dig f (n / B) [] with hcore
      by_cases hk : k ≤ core.length
      · rw [List.drop_append_of_le_length hk, List.foldl_append]
        rw [ih (n / B) a k hdiv]
        rw [List.foldl_cons, List.foldl_nil, gFold_some,
          hdv (n % B) (Nat.mod_lt _ (by omega)), Option.map_some']
        congr 1
        have hlen : (core ++ [dig (n % B)]).length - k = (core.length - k) + 1 := by
          simp; omega
        rw [hlen, pow_succ]
        have hmod : n % (B ^ (core.length - k) * B) =
            n % B + B * (n / B % B ^ (core.length - k)) := by
          rw [Nat.mul_comm (B ^ (core.length - k)) B, Nat.mod_mul]
        rw [hmod]
        ring
      · have hlen2 : (core ++ [dig (n % B)]).length ≤ k := by simp; omega
        rw [List.drop_eq_nil_of_le hlen2, List.foldl_nil]
        rw [Nat.sub_eq_zero_of_le hlen2, pow_zero]
        simp [Nat.mod_one]

/-- Folding over a run of padding zeroes multiplies the accumulator by
the corresponding base power. -/
theorem fold_replicate_zero (B : Nat) (dv : Char → Option Nat)
    (hdv0 : dv '0' = some 0) : ∀ k a,
    (List.replicate k '0').foldl (gFold B dv) (some a) = some (a * B ^ k) := by
  intro k
  induction k with
  | zero => intro a; simp
  | succ m ih =>
    intro a
    rw [List.replicate_succ, List.foldl_cons, gFold_some, hdv0, Option.map_some']
    rw [ih (B * a + 0)]
    congr 1
    rw [pow_succ]
    ring

theorem hexDigitVal_hexDigitChar : ∀ m, m < 16 → hexDigitVal (hexDigitChar m) = some m := by
  intro m hm
  interval_cases m <;> decide

theorem decDigitVal_decDigitChar : ∀ m, m < 10 →
    decDigitVal (Char.ofNat (48 + m)) = some m := by
  intro m hm
  interval_cases m <;> decide

/-- `"{:0wx}".format(x)` has length exactly `w` when `x` fits. -/
theorem formatHex_length (w x : Nat) (hw : 1 ≤ w) (hx : x < 16 ^ w) :
    (formatHex w x).length = w := by
  rw [formatHex, natToHex, zfill, natToHexAux_eq_digitsAux]
  have := digitsAux_length_le 16 hexDigitChar (by omega) (x + 1) x w (by omega) hx hw
  simp
  omega

theorem formatDec_length (w x : Nat) (hw : 1 ≤ w) (hx : x < 10 ^ w) :
    (formatDec w x).length = w := by
  rw [formatDec, natToDec, zfill, natToDecAux_eq_digitsAux]
  have := digitsAux_length_le 10 (fun m => Char.ofNat (48 + m)) (by omega) (x + 1) x w (by omega) hx hw
  simp
  omega

/-- `int(_, 16)` inverts `"{:0wx}".format` on in-range values. -/
theorem pyIntHexDigits_formatHex (w x : Nat) (hw : 1 ≤ w) (hx : x < 16 ^ w) :
    pyIntHexDigits (formatHex w x) = .ok x := by
  have hne : formatHex w x ≠ [] := by
    have hl := formatHex_length w x hw hx
    intro hnil
    rw [hnil] at hl
    simp at hl
    omega
  obtain ⟨c, t, hct⟩ := List.exists_cons_of_ne_nil hne
  have hfold : (c :: t).foldl
      (fun acc c => acc.bind fun a => (hexDigitVal c).map (16 * a + ·)) (some 0) = some x := by
    rw [← hct]
    show (formatHex w x).foldl (gFold 16 hexDigitVal) (some 0) = some x
    rw [formatHex, natToHex, zfill, natToHexAux_eq_digitsAux, List.foldl_append]
    rw [fold_replicate_zero 16 hexDigitVal (by decide)]
    have hmain := digitsAux_fold_drop 16 hexDigitChar hexDigitVal (by omega)
      hexDigitVal_hexDigitChar (x + 1) x
      (0 * 16 ^ (w - (digitsAux 16 hexDigitChar (x + 1) x []).length)) 0 (by omega)
    rw [List.drop_zero] at hmain
    rw [hmain]
    congr 1
    have hx2 := digitsAux_lt 16 hexDigitChar (by omega) (x + 1) x (by omega)
    rw [Nat.sub_zero, Nat.mod_eq_of_lt hx2]
    omega
  rw [hct]
  show (match (c :: t).foldl
      (fun acc c => acc.bind fun a => (hexDigitVal c).map (16 * a + ·)) (some 0) with
    | some n => (Except.ok n : Except PyErr Nat)
    | none => Except.error PyErr.valueError) = Except.ok x
  rw [hfold]

theorem pyIntDecDigits_formatDec (w x : Nat) (hw : 1 ≤ w) (hx : x < 10 ^ w) :
    pyIntDecDigits (formatDec w x) = .ok x := by
  have hne : formatDec w x ≠ [] := by
    have hl := formatDec_length w x hw hx
    intro hnil
    rw [hnil] at hl
    simp at hl
    omega
  obtain ⟨c, t, hct⟩ := List.exists_cons_of_ne_nil hne
  have hfold : (c :: t).foldl
      (fun acc c => acc.bind fun a => (decDigitVal c).map (10 * a + ·)) (some 0) = some x := by
    rw [← hct]
    show (formatDec w x).foldl (gFold 10 decDigitVal) (some 0) = some x
    rw [formatDec, natToDec, zfill, natToDecAux_eq_digitsAux, List.foldl_append]
    rw [fold_replicate_zero 10 decDigitVal (by decide)]
    have hmain := digitsAux_fold_drop 10 (fun m => Char.ofNat (48 + m)) decDigitVal (by omega)
      decDigitVal_decDigitChar (x + 1) x
      (0 * 10 ^ (w - (digitsAux 10 (fun m => Char.ofNat (48 + m)) (x + 1) x []).length)) 0
      (by omega)
    rw [List.drop_zero] at hmain
    rw [hmain]
    congr 1
    have hx2 := digitsAux_lt 10 (fun m => Char.ofNat (48 + m)) (by omega) (x + 1) x (by omega)
    rw [Nat.sub_zero, Nat.mod_eq_of_lt hx2]
    omega
  rw [hct]
  show (match (c :: t).foldl
      (fun acc c => acc.bind fun a => (decDigitVal c).map (10 * a + ·)) (some 0) with
    | some n => (Except.ok n : Except PyErr Nat)
    | none => Except.error PyErr.valueError) = Except.ok x
  rw [hfold]

/-- `int(g1[1:], 16)` on a 3-digit gcc recovers the low byte. -/
theorem pyIntHexDigits_formatHex3_drop1 (x : Nat) (hx : x < 4096) :
    pyIntHexDigits ((formatHex 3 x).drop 1) = .ok (x % 256) := by
  rw [formatHex, natToHex, zfill, natToHexAux_eq_digitsAux]
  set D := digitsAux 16 hexDigitChar (x + 1) x [] with hD
  have hL1 : D ≠ [] := digitsAux_ne_nil 16 hexDigitChar (x + 1) x (by omega)
  have hL3 : D.length ≤ 3 :=
    digitsAux_length_le 16 hexDigitChar (by omega) (x + 1) x 3 (by omega) hx (by omega)
  have hxlt : x < 16 ^ D.length := digitsAux_lt 16 hexDigitChar (by omega) (x + 1) x (by omega)
  by_cases h3 : D.length = 3
  · rw [show (3 - D.length : Nat) = 0 by omega, List.replicate_zero, List.nil_append]
    have hne : D.drop 1 ≠ [] := by
      intro hnil
      have := congrArg List.length hnil
      rw [List.length_drop] at this
      simp at this
      omega
    obtain ⟨c, t, hct⟩ := List.exists_cons_of_ne_nil hne
    have hfold : (c :: t).foldl
        (fun acc c => acc.bind fun a => (hexDigitVal c).map (16 * a + ·)) (some 0) =
        some (x % 256) := by
      rw [← hct]
      show (D.drop 1).foldl (gFold 16 hexDigitVal) (some 0) = some (x % 256)
      have hmain := digitsAux_fold_drop 16 hexDigitChar hexDigitVal (by omega)
        hexDigitVal_hexDigitChar (x + 1) x 0 1 (by omega)
      rw [← hD] at hmain
      rw [hmain, h3]
      norm_num
    rw [hct]
    show (match (c :: t).foldl
        (fun acc c => acc.bind fun a => (hexDigitVal c).map (16 * a + ·)) (some 0) with
      | some n => (Except.ok n : Except PyErr Nat)
      | none => Except.error PyErr.valueError) = Except.ok (x % 256)
    rw [hfold]
  · have hlt : x < 256 := by
      have hle : D.length ≤ 2 := by omega
      have h16 : (16 : Nat) ^ D.length ≤ 16 ^ 2 :=
        Nat.pow_le_pow_right (by omega) hle
      omega
    have hdrop : (List.replicate (3 - D.length) '0' ++ D).drop 1 =
        List.replicate (2 - D.length) '0' ++ D := by
      have hlp : 1 ≤ D.length := List.length_pos_of_ne_nil hL1
      rw [show (3 - D.length : Nat) = (2 - D.length) + 1 by omega,
        List.replicate_succ, List.cons_append, List.drop_succ_cons, List.drop_zero]
    rw [hdrop]
    have hne : List.replicate (2 - D.length) '0' ++ D ≠ [] := by simp [hL1]
    obtain ⟨c, t, hct⟩ := List.exists_cons_of_ne_nil hne
    have hfold : (c :: t).foldl
        (fun acc c => acc.bind fun a => (hexDigitVal c).map (16 * a + ·)) (some 0) =
        some (x % 256) := by
      rw [← hct]
      show (List.replicate (2 - D.length) '0' ++ D).foldl (gFold 16 hexDigitVal) (some 0) =
        some (x % 256)
      rw [List.foldl_append, fold_replicate_zero 16 hexDigitVal (by decide)]
      have hmain := digitsAux_fold_drop 16 hexDigitChar hexDigitVal (by omega)
        hexDigitVal_hexDigitChar (x + 1) x (0 * 16 ^ (2 - D.length)) 0 (by omega)
      rw [← hD, List.drop_zero] at hmain
      rw [hmain, Nat.sub_zero, Nat.mod_eq_of_lt hxlt]
      congr 1
      omega
    rw [hct]
    show (match (c :: t).foldl
        (fun acc c => acc.bind fun a => (hexDigitVal c).map (16 * a + ·)) (some 0) with
      | some n => (Except.ok n : Except PyErr Nat)
      | none => Except.error PyErr.valueError) = Except.ok (x % 256)
    rw [hfold]

theorem reAny_formatHex (w x : Nat) : reAny (formatHex w x) = true := by
  rw [reAny, List.all_eq_true]
  intro c hc
  rw [formatHex, zfill, natToHex, natToHexAux_eq_digitsAux] at hc
  rcases List.mem_append.1 hc with h | h
  · have := List.eq_of_mem_replicate h
    subst this
    decide
  · rcases digitsAux_mem 16 hexDigitChar (by omega) (x + 1) x [] c h with h' | ⟨m, hm, hcm⟩
    · simp at h'
    · subst hcm
      revert hm
      intro hm
      interval_cases m <;> decide

theorem reAny_formatDec (w x : Nat) : reAny (formatDec w x) = true := by
  rw [reAny, List.all_eq_true]
  intro c hc
  rw [formatDec, zfill, natToDec, natToDecAux_eq_digitsAux] at hc
  rcases List.mem_append.1 hc with h | h
  · have := List.eq_of_mem_replicate h
    subst this
    decide
  · rcases digitsAux_mem 10 (fun m => Char.ofNat (48 + m)) (by omega) (x + 1) x [] c h with h' | ⟨m, hm, hcm⟩
    · simp at h'
    · subst hcm
      revert hm
      intro hm
      interval_cases m <;> decide

theorem list_len1 {α : Type} (l : List α) (h : l.length = 1) : ∃ a, l = [a] := by
  rcases l with _ | ⟨a, _ | ⟨b, t⟩⟩
  · simp at h
  · exact ⟨a, rfl⟩
  · simp at h

theorem list_len3 {α : Type} (l : List α) (h : l.length = 3) : ∃ a b c, l = [a, b, c] := by
  rcases l with _ | ⟨a, _ | ⟨b, _ | ⟨c, _ | ⟨d, t⟩⟩⟩⟩
  · simp at h
  · simp at h
  · simp at h
  · exact ⟨a, b, c, rfl⟩
  · simp at h

theorem list_len4 {α : Type} (l : List α) (h : l.length = 4) :
    ∃ a b c d, l = [a, b, c, d] := by
  rcases l with _ | ⟨a, _ | ⟨b, _ | ⟨c, _ | ⟨d, _ | ⟨e, t⟩⟩⟩⟩⟩
  · simp at h
  · simp at h
  · simp at h
  · simp at h
  · exact ⟨a, b, c, d, rfl⟩
  · simp at h

theorem list_len5 {α : Type} (l : List α) (h : l.length = 5) :
    ∃ a b c d e, l = [a, b, c, d, e] := by
  rcases l with _ | ⟨a, _ | ⟨b, _ | ⟨c, _ | ⟨d, _ | ⟨e, _ | ⟨f, t⟩⟩⟩⟩⟩⟩
  · simp at h
  · simp at h
  · simp at h
  · simp at h
  · simp at h
  · exact ⟨a, b, c, d, e, rfl⟩
  · simp at h

/-- The `dab:` pattern matches the canonical bearer string, yielding the
four formatted groups. -/
theorem dabMatch_structured (A B C D : List Char)
    (hA : A.length = 3) (hB : B.length = 4) (hC : C.length = 4) (hD : D.length = 1)
    (hrA : reAny A = true) (hrB : reAny B = true) (hrC : reAny C = true)
    (hrD : reAny D = true) :
    dabMatch ((chars "dab:") ++ A ++ ['.'] ++ B ++ ['.'] ++ C ++ ['.'] ++ D) =
      some (A, B, C, D) := by
  obtain ⟨a1, a2, a3, rfl⟩ := list_len3 A hA
  obtain ⟨b1, b2, b3, b4, rfl⟩ := list_len4 B hB
  obtain ⟨c1, c2, c3, c4, rfl⟩ := list_len4 C hC
  obtain ⟨d1, rfl⟩ := list_len1 D hD
  simp only [dabMatch]
  split
  · split
    · rfl
    · rename_i hcond
      exact absurd ⟨rfl, hrA, rfl, rfl, hrB, rfl, rfl, hrC, rfl, rfl, hrD, .inl rfl⟩ hcond
  · rename_i hcond
    exact absurd rfl hcond

/-- The `fm:` pattern matches the canonical bearer string at its start. -/
theorem fmMatchAt_structured (A B C : List Char)
    (hA : A.length = 3) (hB : B.length = 4) (hC : C.length = 5)
    (hrA : reAny A = true) (hrB : reAny B = true) (hrC : reAny C = true) :
    fmMatchAt ((chars "fm:") ++ A ++ ['.'] ++ B ++ ['.'] ++ C) = some (A, B, C) := by
  obtain ⟨a1, a2, a3, rfl⟩ := list_len3 A hA
  obtain ⟨b1, b2, b3, b4, rfl⟩ := list_len4 B hB
  obtain ⟨c1, c2, c3, c4, c5, rfl⟩ := list_len5 C hC
  simp only [fmMatchAt]
  split
  · split
    · rfl
    · rename_i hcond
      exact absurd ⟨rfl, hrA, rfl, rfl, hrB, rfl, rfl, hrC⟩ hcond
  · rename_i hcond
    exact absurd rfl hcond

/-- `re.search` returns the match at position 0 when there is one. -/
theorem fmSearch_cons_of_matchAt (c : Char) (cs : List Char)
    (g : List Char × List Char × List Char) (h : fmMatchAt (c :: cs) = some g) :
    fmSearch (c :: cs) = some g := by
  show (match fmMatchAt (c :: cs) with
        | some g => some g
        | none => fmSearch cs) = some g
  rw [h]

/-- The low byte of the gcc is the ecc (spi.py's gcc packing):
`(x >> 4) & 0xf00` is a multiple of 256. -/
theorem gcc_mod_256 (x ecc : Nat) (hecc : ecc ≤ 0xff) :
    (((x >>> 4) &&& 0xf00) + ecc) % 256 = ecc := by
  have h255 : ((x >>> 4) &&& 0xf00) &&& 255 = 0 := by
    rw [Nat.and_assoc, show ((0xf00 &&& 255 : Nat) = 0) by decide, Nat.and_zero]
  have hmod : ((x >>> 4) &&& 0xf00) % 256 = 0 := by
    have hpow := Nat.and_pow_two_sub_one_eq_mod ((x >>> 4) &&& 0xf00) 8
    norm_num at hpow
    rw [h255] at hpow
    exact hpow.symm
  omega

theorem gcc_le (x ecc : Nat) (hecc : ecc ≤ 0xff) :
    (((x >>> 4) &&& 0xf00) + ecc) < 4096 := by
  have h1 : (x >>> 4) &&& 0xf00 ≤ 0xf00 := Nat.and_le_right
  omega

/-- `DabBearer.fromstring` inverts `DabBearer.__str__` on every bearer
without xpad whose fields fit their encoded widths: the positive half of
the C2 round-trip claim.  (With an xpad the round trip instead raises
`ValueError`.) -/
theorem dab_roundtrip (ecc eid sid scids : Nat)
    (h1 : ecc ≤ 0xff) (h2 : eid ≤ 0xffff) (h3 : sid ≤ 0xffff) (h4 : scids ≤ 0xf) :
    DabBearer.fromstring (DabBearer.str ⟨ecc, eid, sid, scids, none⟩) =
      .ok ⟨ecc, eid, sid, scids, none⟩ := by
  have hgcc4096 := gcc_le eid ecc h1
  have hstr : DabBearer.str ⟨ecc, eid, sid, scids, none⟩ =
      (chars "dab:") ++ formatHex 3 (((eid >>> 4) &&& 0xf00) + ecc) ++ ['.'] ++
        formatHex 4 eid ++ ['.'] ++ formatHex 4 sid ++ ['.'] ++ formatHex 1 scids := by
    show _ ++ [] = _
    rw [List.append_nil]
  rw [DabBearer.fromstring, hstr,
    dabMatch_structured _ _ _ _
      (formatHex_length 3 _ (by omega) (by omega))
      (formatHex_length 4 eid (by omega) (by omega))
      (formatHex_length 4 sid (by omega) (by omega))
      (formatHex_length 1 scids (by omega) (by omega))
      (reAny_formatHex 3 _) (reAny_formatHex 4 eid) (reAny_formatHex 4 sid)
      (reAny_formatHex 1 scids)]
  show (do
    let e ← pyIntHexDigits ((formatHex 3 (((eid >>> 4) &&& 0xf00) + ecc)).drop 1)
    let ei ← pyIntHexDigits (formatHex 4 eid)
    let si ← pyIntHexDigits (formatHex 4 sid)
    let sc ← pyIntHexDigits (formatHex 1 scids)
    return (⟨e, ei, si, sc, none⟩ : DabBearer)) = .ok ⟨ecc, eid, sid, scids, none⟩
  rw [show pyIntHexDigits ((formatHex 3 (((eid >>> 4) &&& 0xf00) + ecc)).drop 1) =
      .ok ecc from (pyIntHexDigits_formatHex3_drop1 _ hgcc4096).trans
        (by rw [gcc_mod_256 eid ecc h1]),
    pyIntHexDigits_formatHex 4 eid (by omega) (by omega),
    pyIntHexDigits_formatHex 4 sid (by omega) (by omega),
    pyIntHexDigits_formatHex 1 scids (by omega) (by omega)]
  rfl

theorem dab_roundtrip_witness :
    DabBearer.fromstring (DabBearer.str ⟨0xe1, 0xce15, 0xc221, 0, none⟩) =
      .ok ⟨0xe1, 0xce15, 0xc221, 0, none⟩ :=
  dab_roundtrip 0xe1 0xce15 0xc221 0 (by decide) (by decide) (by decide) (by decide)

/-- Whatever the input, `DabBearer.fromstring` never sets an xpad: the
`len(matcher.groups()) > 4` branch of spi.py lines 229-231 is dead code. -/
theorem dab_fromstring_xpad_none (s : List Char) (b : DabBearer)
    (h : DabBearer.fromstring s = .ok b) : b.xpad = none := by
  rw [DabBearer.fromstring] at h
  cases hm : dabMatch s with
  | none => rw [hm] at h; cases h
  | some g =>
    obtain ⟨g1, g2, g3, g4⟩ := g
    rw [hm] at h
    obtain ⟨e1, he1, h⟩ := except_bind_ok h
    obtain ⟨e2, he2, h⟩ := except_bind_ok h
    obtain ⟨e3, he3, h⟩ := except_bind_ok h
    obtain ⟨e4, he4, h⟩ := except_bind_ok h
    cases h
    rfl

theorem dab_fromstring_xpad_none_witness :
    ∃ b, DabBearer.fromstring (chars "dab:ce1.ce15.c221.0") = .ok b ∧ b.xpad = none := by
  refine ⟨⟨0xe1, 0xce15, 0xc221, 0, none⟩, by rfl, ?_⟩
  exact dab_fromstring_xpad_none (chars "dab:ce1.ce15.c221.0") _ (by rfl)

/-- `FmBearer.fromstring` inverts `FmBearer.__str__` up to flooring the
frequency to a multiple of 10 Hz (the `__str__` encoding divides by 10,
`fromstring` multiplies back). -/
theorem fm_roundtrip (ecc pi freq : Nat)
    (h1 : ecc ≤ 0xff) (h2 : pi ≤ 0xffff) (h3 : freq / 10 ≤ 99999) :
    FmBearer.fromstring (FmBearer.str ⟨ecc, pi, freq⟩) =
      .ok ⟨ecc, pi, freq / 10 * 10⟩ := by
  have hgcc4096 := gcc_le pi ecc h1
  have hmatch : fmMatchAt ((chars "fm:") ++ formatHex 3 (((pi >>> 4) &&& 0xf00) + ecc) ++
      ['.'] ++ formatHex 4 pi ++ ['.'] ++ formatDec 5 (freq / 10)) =
      some (formatHex 3 (((pi >>> 4) &&& 0xf00) + ecc), formatHex 4 pi,
        formatDec 5 (freq / 10)) :=
    fmMatchAt_structured _ _ _
      (formatHex_length 3 _ (by omega) (by omega))
      (formatHex_length 4 pi (by omega) (by omega))
      (formatDec_length 5 _ (by omega) (by omega))
      (reAny_formatHex 3 _) (reAny_formatHex 4 pi) (reAny_formatDec 5 _)
  rw [FmBearer.fromstring]
  rw [show FmBearer.str ⟨ecc, pi, freq⟩ =
      'f' :: ('m' :: (':' :: (formatHex 3 (((pi >>> 4) &&& 0xf00) + ecc) ++ ['.'] ++
        formatHex 4 pi ++ ['.'] ++ formatDec 5 (freq / 10)))) from by
    show (chars "fm:") ++ _ ++ ['.'] ++ _ ++ ['.'] ++ _ = _
    simp [chars, List.append_assoc]]
  rw [fmSearch_cons_of_matchAt _ _ _ (by
    show fmMatchAt ((chars "fm:") ++ _ ++ ['.'] ++ _ ++ ['.'] ++ _) = _
    exact hmatch)]
  show (do
    let e ← pyIntHexDigits ((formatHex 3 (((pi >>> 4) &&& 0xf00) + ecc)).drop 1)
    let p ← pyIntHexDigits (formatHex 4 pi)
    let f ← pyIntDecDigits (formatDec 5 (freq / 10))
    return (⟨e, p, f * 10⟩ : FmBearer)) = .ok ⟨ecc, pi, freq / 10 * 10⟩
  rw [show pyIntHexDigits ((formatHex 3 (((pi >>> 4) &&& 0xf00) + ecc)).drop 1) =
      .ok ecc from (pyIntHexDigits_formatHex3_drop1 _ hgcc4096).trans
        (by rw [gcc_mod_256 pi ecc h1]),
    pyIntHexDigits_formatHex 4 pi (by omega) (by omega),
    pyIntDecDigits_formatDec 5 (freq / 10) (by omega) (by omega)]
  rfl

theorem fm_roundtrip_witness :
    FmBearer.fromstring (FmBearer.str ⟨0xe1, 0xc479, 95800⟩) =
      .ok ⟨0xe1, 0xc479, 95800⟩ :=
  (fm_roundtrip 0xe1 0xc479 95800 (by decide) (by decide) (by norm_num)).trans (by norm_num)

/-- The decoded FM bearer is `__eq__`-equal to the original even when the
frequency was not a multiple of 10 Hz: `__eq__` compares canonical
strings and the encoding already floors. -/
theorem fm_roundtrip_eqv (ecc pi freq : Nat)
    (h1 : ecc ≤ 0xff) (h2 : pi ≤ 0xffff) (h3 : freq / 10 ≤ 99999) (b : FmBearer)
    (h : FmBearer.fromstring (FmBearer.str ⟨ecc, pi, freq⟩) = .ok b) :
    FmBearer.eqv ⟨ecc, pi, freq⟩ b = true := by
  rw [fm_roundtrip ecc pi freq h1 h2 h3] at h
  cases h
  rw [FmBearer.eqv]
  have hstr : FmBearer.str ⟨ecc, pi, freq⟩ = FmBearer.str ⟨ecc, pi, freq / 10 * 10⟩ := by
    rw [FmBearer.str, FmBearer.str]
    rw [show (freq / 10 * 10) / 10 = freq / 10 from Nat.mul_div_cancel _ (by omega)]
  rw [hstr]
  exact decide_eq_true rfl

theorem fm_roundtrip_eqv_witness :
    FmBearer.fromstring (FmBearer.str ⟨0xe1, 0xc479, 95805⟩) =
      .ok ⟨0xe1, 0xc479, 95800⟩ ∧
    FmBearer.eqv ⟨0xe1, 0xc479, 95805⟩ ⟨0xe1, 0xc479, 95800⟩ = true := by
  constructor
  · exact (fm_roundtrip 0xe1 0xc479 95805 (by decide) (by decide) (by norm_num)).trans
      (by norm_num)
  · exact fm_roundtrip_eqv 0xe1 0xc479 95805 (by decide) (by decide) (by norm_num) _
      ((fm_roundtrip 0xe1 0xc479 95805 (by decide) (by decide) (by norm_num)).trans
        (by norm_num))

/-- The IpStream codec is the identity on URIs. -/
theorem ip_roundtrip (b : IpBearer) : IpBearer.fromstring (IpBearer.str b) = b := rfl

/-!
## Lifting the component-scan invariants to the built service list
(supporting C1)

`buildServices` copies the scan state of each service verbatim into the
emitted record, so the C1 invariants hold of every service
`parse_mux_config` returns, not only of the scan itself.
-/

/-- The service's flag and EPG fields are exactly those of a successful
component scan for its name. -/
def scanDerived (comps : List Component) (subs : List Subchannel) (s : Service) : Prop :=
  ∃ st', scanComponents ScanState.init comps subs s.service = .ok st' ∧
    s.hasEPG = st'.hasEPG ∧ s.hasSlideshow = st'.hasSlideshow ∧
    s.EPGpacketSize = st'.EPGpacketSize ∧ s.EPGinputURI = st'.EPGinputURI ∧
    s.EPGpacketAddress = st'.EPGpacketAddress

theorem buildServices_fold_scanDerived (svcsNode : BoostInfoTree) (comps : List Component)
    (subs : List Subchannel) (e_ecc e_id : Nat) :
    ∀ (kvs : List (List Char × List BoostInfoTree)) (acc services : List Service),
    List.foldlM
      (fun acc kv => do
        let node ← treeGet0 svcsNode kv.1
        let service_id ← pyIntHex (← treeGetValue node (chars "id"))
        let ecc ← service_ecc node service_id e_ecc
        let st ← scanComponents ScanState.init comps subs kv.1
        let label ← treeGetValue node (chars "label")
        return acc ++ [({
          service := kv.1
          label := label
          bearer := ⟨ecc, e_id, service_id, 0, none⟩
          hasEPG := st.hasEPG
          hasSlideshow := st.hasSlideshow
          EPGpacketSize := st.EPGpacketSize
          EPGinputURI := st.EPGinputURI
          EPGpacketAddress := st.EPGpacketAddress } : Service)])
      acc kvs = .ok services →
    (∀ s ∈ acc, scanDerived comps subs s) →
    ∀ s ∈ services, scanDerived comps subs s := by
  intro kvs
  induction kvs with
  | nil =>
    intro acc services h hacc
    rw [List.foldlM_nil] at h
    cases h
    exact hacc
  | cons kv rest ih =>
    intro acc services h hacc
    rw [List.foldlM_cons] at h
    obtain ⟨mid, hmid, h⟩ := except_bind_ok h
    obtain ⟨node, hnode, hmid⟩ := except_bind_ok hmid
    obtain ⟨idv, hidv, hmid⟩ := except_bind_ok hmid
    obtain ⟨service_id, hsid, hmid⟩ := except_bind_ok hmid
    obtain ⟨ecc, hecc, hmid⟩ := except_bind_ok hmid
    obtain ⟨st, hst, hmid⟩ := except_bind_ok hmid
    obtain ⟨label, hlabel, hmid⟩ := except_bind_ok hmid
    have hmid' := Except.ok.inj hmid
    refine ih mid services h ?_
    intro s hs
    rw [← hmid'] at hs
    rcases List.mem_append.1 hs with hs | hs
    · exact hacc s hs
    · rcases List.mem_singleton.1 hs with rfl
      exact ⟨st, hst, rfl, rfl, rfl, rfl, rfl⟩

/-- Every service the builder emits carries the scan state of its own
name's component scan. -/
theorem buildServices_scanDerived (svcsNode : BoostInfoTree) (comps : List Component)
    (subs : List Subchannel) (e_ecc e_id : Nat) (services : List Service)
    (h : buildServices svcsNode comps subs e_ecc e_id = .ok services) :
    ∀ s ∈ services, scanDerived comps subs s :=
  buildServices_fold_scanDerived svcsNode comps subs e_ecc e_id svcsNode.subTrees [] services h
    (fun s hs => absurd hs (List.not_mem_nil s))

/-- The C1 invariants at the whole-builder level: every service of a
successful `parse_mux_config` has its EPG packet size and address
populated together, its EPG input URI only populated with them, and its
`hasEPG` flag true iff some figtype-7/type-60 component of the built
component list references it. -/
theorem parse_mux_config_epg_invariants (root : BoostInfoTree) (services : List Service)
    (h : parse_mux_config root = .ok services) :
    ∃ comps : List Component,
      ((treeGet0 root (chars "components")).bind fun n => buildComponents n) = .ok comps ∧
      ∀ s ∈ services,
        (s.EPGpacketSize.isSome ↔ s.EPGpacketAddress.isSome) ∧
        (s.EPGinputURI.isSome → s.EPGpacketSize.isSome) ∧
        (s.hasEPG = true ↔ ∃ c ∈ comps, Component.isEpgFor s.service c) := by
  rw [parse_mux_config] at h
  obtain ⟨ensNode1, hens1, h⟩ := except_bind_ok h
  obtain ⟨eccv, heccv, h⟩ := except_bind_ok h
  obtain ⟨e_ecc, hecc, h⟩ := except_bind_ok h
  obtain ⟨ensNode2, hens2, h⟩ := except_bind_ok h
  obtain ⟨idv, hidv, h⟩ := except_bind_ok h
  obtain ⟨e_id, hid, h⟩ := except_bind_ok h
  obtain ⟨subsNode, hsubsNode, h⟩ := except_bind_ok h
  obtain ⟨subs, hsubs, h⟩ := except_bind_ok h
  obtain ⟨compsNode, hcompsNode, h⟩ := except_bind_ok h
  obtain ⟨comps, hcomps, h⟩ := except_bind_ok h
  obtain ⟨svcsNode, hsvcsNode, h⟩ := except_bind_ok h
  refine ⟨comps, by rw [hcompsNode]; exact hcomps, ?_⟩
  intro s hs
  obtain ⟨st', hscan, hEPG, hslide, hsize, huri, haddr⟩ :=
    buildServices_scanDerived svcsNode comps subs e_ecc e_id services h s hs
  have hp := scanComponents_props hscan
  have hinit : epgFieldsTogether ScanState.init := by
    simp [epgFieldsTogether, ScanState.init]
  have hf := hp.2 hinit
  refine ⟨?_, ?_, ?_⟩
  · rw [hsize, haddr]; exact hf.1
  · rw [huri, hsize]; exact hf.2
  · rw [hEPG, hp.1]
    simp [ScanState.init, List.any_eq_true]

theorem parse_mux_config_epg_invariants_witness :
    ∃ (services : List Service) (comps : List Component),
      parse_mux_config_lines cfgScenarioA = .ok services ∧ services ≠ [] ∧
      ∀ s ∈ services,
        (s.EPGpacketSize.isSome ↔ s.EPGpacketAddress.isSome) ∧
        (s.hasEPG = true ↔ ∃ c ∈ comps, Component.isEpgFor s.service c) := by
  cases hall : parse_mux_config_lines cfgScenarioA with
  | error e =>
    have hb : (parse_mux_config_lines cfgScenarioA).toOption.isSome = false :=
      congrArg (fun x => x.toOption.isSome) hall
    exact absurd hb (by decide)
  | ok services =>
    obtain ⟨root, hroot, hsvc⟩ := except_bind_ok
      (show (parseLines cfgScenarioA >>= fun r => parse_mux_config r) = .ok services from hall)
    obtain ⟨comps, hcomps, hinv⟩ := parse_mux_config_epg_invariants root services hsvc
    have hlen : (parse_mux_config_lines cfgScenarioA).map List.length = .ok 1 := by rfl
    rw [hall] at hlen
    have h1 : services.length = 1 := Except.ok.inj hlen
    refine ⟨services, comps, rfl, ?_, fun s hs => ⟨(hinv s hs).1, (hinv s hs).2.2⟩⟩
    intro hnil
    rw [hnil] at h1
    exact absurd h1 (by decide)

/-!
## The claims
-/

/-- Claim C1 (amended): for every component list, eligible-subchannel list
and service name, a successful component scan of the builder yields
`hasEPG = true` iff at least one figtype-7/type-60 component references
the service — whether or not that component's subchannel resolves to an
eligible subchannel, and regardless of how many such components there
are; the EPG packet size and packet address are populated together, and
the EPG input URI is populated only together with them (it can stay unset
when the matched subchannel's `inputuri` key has no value). -/
theorem c1_scan_hasEPG_iff_and_fields_together
    (comps : List Component) (subs : List Subchannel) (svc : List Char)
    (st' : ScanState) (h : scanComponents ScanState.init comps subs svc = .ok st') :
    (st'.hasEPG = true ↔ ∃ c ∈ comps, Component.isEpgFor svc c) ∧
    (st'.EPGpacketSize.isSome ↔ st'.EPGpacketAddress.isSome) ∧
    (st'.EPGinputURI.isSome → st'.EPGpacketSize.isSome) := by
  have hp := scanComponents_props h
  have hinit : epgFieldsTogether ScanState.init := by
    simp [epgFieldsTogether, ScanState.init]
  have hf := hp.2 hinit
  refine ⟨?_, hf.1, hf.2⟩
  rw [hp.1]
  simp [ScanState.init, List.any_eq_true]

/-- Witness for C1: the amended claim evaluated at one figtype-7/type-60
component for service `SRV1` and an empty eligible-subchannel list. -/
theorem c1_scan_hasEPG_iff_and_fields_together_witness :
    scanComponents ScanState.init
      [.epg (some (chars "SRV1")) (some (chars "sub-x")) 1] [] (chars "SRV1")
      = .ok ⟨true, false, none, none, none⟩ ∧
    ((true = true ↔ ∃ c ∈ [Component.epg (some (chars "SRV1")) (some (chars "sub-x")) 1],
        Component.isEpgFor (chars "SRV1") c) ∧
     ((none : Option Nat).isSome ↔ (none : Option Nat).isSome) ∧
     ((none : Option (List Char)).isSome → (none : Option Nat).isSome)) := by
  refine ⟨by rfl, ?_⟩
  exact c1_scan_hasEPG_iff_and_fields_together
    [.epg (some (chars "SRV1")) (some (chars "sub-x")) 1] []
    (chars "SRV1") ⟨true, false, none, none, none⟩ (by rfl)

/-- Counterexample to C1 as stated: in `cfgEpgAudioSub` exactly one
figtype-7/type-60 component references `SRV1`, but its subchannel is
`type audio`, so the eligible-subchannel list is empty and the component's
subchannel does not resolve — the claim then requires `hasEPG = false`,
yet the built service has `hasEPG = true` (with every EPG field unset). -/
theorem c1_counterexample_audio_subchannel :
    (parse_mux_config_lines cfgEpgAudioSub).map
      (·.map fun s => (s.hasEPG, s.EPGpacketSize, s.EPGinputURI, s.EPGpacketAddress))
      = .ok [(true, none, none, none)] ∧
    eligibleSubchannels cfgEpgAudioSub = .ok [] := by
  exact ⟨rfl, rfl⟩

/-- Claim C2 (the xpad slip evaluated): the bearer of the `DabBearer`
docstring's own example form, `ecc=0xE1, eid=0xCE15, sid=0xC221, scids=0`
with the X-PAD application type `1`, encodes to
`dab:ce1.ce15.c221.0.0001`, and decoding that encoding raises
`ValueError` — the `fromstring` pattern `[\.(.+?)]{0,1}` admits at most
ONE further character after the SCIdS group, so no xpad suffix ever
parses (nor does the docstring's literal example `dab:ce1.ce15.c221.0.1`),
and `decode(encode(b)) == b` fails for every bearer with an
X-PAD application type.  Without an xpad the round-trip does hold for
every bearer whose fields fit their encoded widths, and no decoded
bearer ever carries an xpad (the `group(5)` branch is dead code). -/
theorem c2_xpad_roundtrip_fails :
    DabBearer.str ⟨0xe1, 0xce15, 0xc221, 0, some 1⟩ = chars "dab:ce1.ce15.c221.0.0001" ∧
    DabBearer.fromstring (DabBearer.str ⟨0xe1, 0xce15, 0xc221, 0, some 1⟩)
      = .error .valueError ∧
    DabBearer.fromstring (chars "dab:ce1.ce15.c221.0.1") = .error .valueError ∧
    (∀ ecc eid sid scids : Nat, ecc ≤ 0xff → eid ≤ 0xffff → sid ≤ 0xffff → scids ≤ 0xf →
      DabBearer.fromstring (DabBearer.str ⟨ecc, eid, sid, scids, none⟩) =
        .ok ⟨ecc, eid, sid, scids, none⟩) ∧
    (∀ (s : List Char) (b : DabBearer), DabBearer.fromstring s = .ok b → b.xpad = none) := by
  exact ⟨rfl, rfl, rfl,
    fun ecc eid sid scids h1 h2 h3 h4 => dab_roundtrip ecc eid sid scids h1 h2 h3 h4,
    dab_fromstring_xpad_none⟩

/-- Claim C3: the GCC used for the directory lookup.  For a long service
identifier (over 65535) the builder's per-service ECC is the top byte of
the identifier itself, whatever the service block holds (the per-service
`ecc` override is ignored), and the lookup GCC is the embedded
country-code nibble plus that top byte; for a short identifier the lookup
GCC adds the bearer's ECC, which is the `ecc` override when the key is
present and the ensemble ECC otherwise. -/
theorem c3_gcc_derivation (node : BoostInfoTree) (sid eid eEcc ecc : Nat)
    (h : service_ecc node sid eEcc = .ok ecc) :
    (sid > 65535 →
      ecc = sid >>> 24 ∧
      (∀ node2 : BoostInfoTree, service_ecc node2 sid eEcc = .ok (sid >>> 24)) ∧
      resolve_dns_gcc ⟨ecc, eid, sid, 0, none⟩ =
        ((sid >>> 12) &&& 0xf00) + (sid >>> 24)) ∧
    (sid ≤ 65535 →
      resolve_dns_gcc ⟨ecc, eid, sid, 0, none⟩ = ((sid >>> 4) &&& 0xf00) + ecc ∧
      (dictFind node.subTrees (chars "ecc") = none → ecc = eEcc) ∧
      (∀ b e, dictFind node.subTrees (chars "ecc") = some b →
        ((index0 b).bind fun n => pyIntHex n.value) = .ok e → ecc = e)) := by
  constructor
  · intro hl
    unfold service_ecc at h
    rw [if_pos hl] at h
    cases h
    refine ⟨rfl, ?_, ?_⟩
    · intro node2
      unfold service_ecc
      rw [if_pos hl]
    · unfold resolve_dns_gcc
      rw [if_pos hl]
  · intro hs
    have hns : ¬ sid > 65535 := by omega
    constructor
    · unfold resolve_dns_gcc
      rw [if_neg hns]
    constructor
    · intro hd
      unfold service_ecc at h
      rw [if_neg hns, hd] at h
      cases h
      rfl
    · intro b e hd he
      unfold service_ecc at h
      rw [if_neg hns, hd] at h
      exact Except.ok.inj (h.symm.trans he)

/-- Witness for C3: the claim applied to a long identifier
(`0xe1c00221`, whose GCC comes out as `0xce1`) and to a short identifier
(`0x4001` with no override, falling back to the ensemble ECC `0x99`). -/
theorem c3_gcc_derivation_witness :
    ((0xe1c00221 > 65535 →
      0xe1 = 0xe1c00221 >>> 24 ∧
      (∀ node2 : BoostInfoTree, service_ecc node2 0xe1c00221 0x99 = .ok (0xe1c00221 >>> 24)) ∧
      resolve_dns_gcc ⟨0xe1, 0x4fff, 0xe1c00221, 0, none⟩ =
        ((0xe1c00221 >>> 12) &&& 0xf00) + (0xe1c00221 >>> 24)) ∧
     (0xe1c00221 ≤ 65535 →
      resolve_dns_gcc ⟨0xe1, 0x4fff, 0xe1c00221, 0, none⟩ =
        ((0xe1c00221 >>> 4) &&& 0xf00) + 0xe1 ∧
      (dictFind rootNode.subTrees (chars "ecc") = none → 0xe1 = 0x99) ∧
      (∀ b e, dictFind rootNode.subTrees (chars "ecc") = some b →
        ((index0 b).bind fun n => pyIntHex n.value) = .ok e → 0xe1 = e))) ∧
    ((0x4001 > 65535 →
      0x99 = 0x4001 >>> 24 ∧
      (∀ node2 : BoostInfoTree, service_ecc node2 0x4001 0x99 = .ok (0x4001 >>> 24)) ∧
      resolve_dns_gcc ⟨0x99, 0x4fff, 0x4001, 0, none⟩ =
        ((0x4001 >>> 12) &&& 0xf00) + (0x4001 >>> 24)) ∧
     (0x4001 ≤ 65535 →
      resolve_dns_gcc ⟨0x99, 0x4fff, 0x4001, 0, none⟩ =
        ((0x4001 >>> 4) &&& 0xf00) + 0x99 ∧
      (dictFind rootNode.subTrees (chars "ecc") = none → 0x99 = 0x99) ∧
      (∀ b e, dictFind rootNode.subTrees (chars "ecc") = some b →
        ((index0 b).bind fun n => pyIntHex n.value) = .ok e → 0x99 = e))) ∧
    resolve_dns_gcc ⟨0xe1, 0x4fff, 0xe1c00221, 0, none⟩ = 0xce1 := by
  refine ⟨?_, ?_, by decide⟩
  · exact c3_gcc_derivation rootNode 0xe1c00221 0x4fff 0x99 0xe1 (by rfl)
  · exact c3_gcc_derivation rootNode 0x4001 0x4fff 0x99 0x99 (by rfl)

/-- Claim C4 (amended): EPG aggregation yields at most one entry per fqdn
(the entries' fqdns are pairwise distinct, for every resolved service
list); the inner accumulation gives an entry exactly the bearers, in
order, of the services whose record carries the fqdn and whose supported
list FOR THE ENTRY'S RECORDED APPLICATION is non-empty, with the server
list of the last of them; and on the spec's own dedup scenario — two
services on one fqdn both supporting `radioepg` — one entry results with
both bearers and the last contributor's server list. -/
theorem c4_epg_dedup :
    (∀ (services : List ResolvedService) (entries : List EpgEntry),
      resolve_epg services = .ok entries →
      entries.Pairwise (fun a b => a.fqdn ≠ b.fqdn)) ∧
    (∀ (services : List ResolvedService) (app fqdn : List Char)
       (bearers : List DabBearer) (servers : List (List Char)),
      epgCollect services app fqdn = .ok (bearers, servers) →
      bearers = (services.filter (epgQualifies app fqdn)).map (·.svc.bearer) ∧
      servers = ((services.filter (epgQualifies app fqdn)).map (epgServersOf app)).getLastD []) ∧
    resolve_epg [svcEpgGood1, svcEpgGood2] =
      .ok [⟨chars "y.example",
            [⟨0xe1, 0x4fff, 0x4001, 0, none⟩, ⟨0xe1, 0x4fff, 0x4002, 0, none⟩],
            [chars "srvB"], chars "radioepg"⟩] := by
  refine ⟨?_, ?_, rfl⟩
  · intro services entries h
    exact resolve_epg_aux_distinct h List.Pairwise.nil
  · intro services app fqdn bearers servers h
    have := epgCollect_characterization app fqdn services bearers [] servers [] h
    simpa using this

/-- Counterexample to C4 as stated: `svcSpiOnly` and `svcEpgPlusEmptySpi`
share the fqdn `x.example` and the same recorded winning application
(`radiospi` for both — the second service's `radiospi` key is present, so
it overwrites `radioepg` even though its supported list is empty).  The
claim requires the single entry's bearer set to contain BOTH services'
bearers; the code's inner loop filters on the winning application's
supported list and omits the second service's bearer (sid `0x4002`). -/
theorem c4_counterexample_bearer_omitted :
    epgFqdn svcSpiOnly = chars "x.example" ∧
    epgFqdn svcEpgPlusEmptySpi = chars "x.example" ∧
    epgWinningApp svcSpiOnly = chars "radiospi" ∧
    epgWinningApp svcEpgPlusEmptySpi = chars "radiospi" ∧
    epgContributes svcSpiOnly = true ∧
    epgContributes svcEpgPlusEmptySpi = true ∧
    resolve_epg [svcSpiOnly, svcEpgPlusEmptySpi] =
      .ok [⟨chars "x.example", [⟨0xe1, 0x4fff, 0x4001, 0, none⟩],
            [chars "srvA"], chars "radiospi"⟩] ∧
    List.elem (⟨0xe1, 0x4fff, 0x4002, 0, none⟩ : DabBearer)
      [(⟨0xe1, 0x4fff, 0x4001, 0, none⟩ : DabBearer)] = false := by
  exact ⟨rfl, rfl, rfl, rfl, rfl, rfl, rfl, by decide⟩

/-- Claim C5 (amended): a service contributes to the EPG aggregation iff
its record's effective authoritative fqdn is non-empty and at least one
of the two recognized applications (`radioepg`, `radiospi`) has a
non-empty supported list; but the application recorded for the service is
the LAST of (`radioepg`, `radiospi`) whose key is present in the
applications mapping, regardless of which is supported — not the first
supported one. -/
theorem c5_contribution_and_winning_app (s : ResolvedService) :
    (epgContributes s = true ↔
      ((s.dns.bind (·.authorative_fqdn)).getD [] ≠ [] ∧
       ((s.dns.bind (·.app (chars "radioepg"))).elim False (·.supported ≠ []) ∨
        (s.dns.bind (·.app (chars "radiospi"))).elim False (·.supported ≠ [])))) ∧
    epgWinningApp s =
      (if (s.dns.bind (·.app (chars "radiospi"))).isSome then chars "radiospi"
       else if (s.dns.bind (·.app (chars "radioepg"))).isSome then chars "radioepg"
       else []) := by
  cases hd : s.dns with
  | none =>
    simp [epgContributes, epgWinningApp, epgServiceHead, hd]
  | some d =>
    cases he : d.app (chars "radioepg") <;> cases hsp : d.app (chars "radiospi") <;>
      simp [epgContributes, epgWinningApp, epgServiceHead, hd, he, hsp, Option.bind]

/-- Counterexample to C5 as stated: `svcEpgPlusEmptySpi` advertises
`radioepg` with a non-empty supported list (so the first supported
application in preference order is `radioepg`) and a `radiospi` key whose
supported list is EMPTY; the service contributes, but the recorded
winning application is `radiospi` — an application it does not support —
not the first supported one. -/
theorem c5_counterexample_last_key_wins :
    epgContributes svcEpgPlusEmptySpi = true ∧
    epgWinningApp svcEpgPlusEmptySpi = chars "radiospi" ∧
    (svcEpgPlusEmptySpi.dns.bind (·.app (chars "radiospi"))).map (·.supported)
      = some [] ∧
    (svcEpgPlusEmptySpi.dns.bind (·.app (chars "radioepg"))).map (·.supported)
      = some [chars "t"] := ⟨rfl, rfl, rfl, rfl⟩

/-- Claim C6 (amended): the parser defines no `MalformedConfig` failure.
A closing brace with no open context does not abort the parse by itself:
it leaves the context invalid, and only a subsequent structural
(non-blank, non-comment) line aborts the run with a Python exception; a
trailing unmatched `}` is accepted silently, and a context that is never
closed is accepted silently with the root (holding everything built so
far) returned. -/
theorem c6_no_malformed_config :
    (∀ (l : List Char) (ls : List (List Char)), commentStrip (pyStrip l) ≠ [] →
      ∃ e, parseLines (['}'] :: l :: ls) = .error e) ∧
    parseLines [['}']] = .ok rootNode ∧
    parseLines [chars "x", ['{']] =
      .ok ⟨none, [(chars "x", [⟨none, [], none⟩])], some (chars "x")⟩ := by
  refine ⟨?_, rfl, rfl⟩
  intro l ls h
  obtain ⟨e, he⟩ := parseLineCore_dead (commentStrip (pyStrip l)) rootNode h
  have h2 : parseLine (pyStrip l) (.dead rootNode) = .crash e := he
  have hstep : parseLinesAux (['}'] :: l :: ls) (.ok rootNode []) =
      parseLinesAux ls (parseLine (pyStrip l) (.dead rootNode)) := rfl
  rw [h2, parseLinesAux_crash] at hstep
  refine ⟨e, ?_⟩
  unfold parseLines
  rw [hstep]

/-- Counterexample to C6 as stated: a lone unmatched closing brace parses
successfully (no `MalformedConfig`, no abort), and a configuration whose
opened context is never closed also parses successfully and returns a
root tree. -/
theorem c6_counterexample_no_abort :
    (parseLines [['}']]).isOk = true ∧
    (parseLines [chars "x \x7b"]).isOk = true := ⟨rfl, rfl⟩

/-- Claim C7 (amended): the builder aborts with an uncaught `KeyError`
naming the missing key (there is no `MissingRequiredField` in the code)
when `ensemble/ecc`, any subchannel's `type`, a PACKET/ENHANCED-PACKET
subchannel's `bitrate`, or a service's `id` or `label` is absent; a
non-packet subchannel needs no `bitrate`/`inputuri` at all, and presence
of all the claim's mandatory keys does not guarantee success (a
figtype-7 component still requires its own `type` key). -/
theorem c7_missing_field_failures :
    parse_mux_config_lines cfgNoEcc = .error (.keyError (chars "ecc")) ∧
    parse_mux_config_lines cfgNoType = .error (.keyError (chars "type")) ∧
    parse_mux_config_lines cfgPacketNoBitrate = .error (.keyError (chars "bitrate")) ∧
    parse_mux_config_lines cfgNoId = .error (.keyError (chars "id")) ∧
    parse_mux_config_lines cfgNoLabel = .error (.keyError (chars "label")) ∧
    (parse_mux_config_lines cfgAudioNoBitrate).isOk = true ∧
    parse_mux_config_lines cfgFig7NoType = .error (.keyError (chars "type")) := by
  exact ⟨rfl, rfl, rfl, rfl, rfl, rfl, rfl⟩

/-- Counterexample to C7 as stated: `cfgAudioNoBitrate` declares a
subchannel with neither `bitrate` nor `inputuri` (confirmed by probing
the parsed tree), yet the build succeeds — the claim's "fails whenever
any subchannel's bitrate or inputuri is absent" is false for non-packet
subchannels. -/
theorem c7_counterexample_audio_without_bitrate :
    (parse_mux_config_lines cfgAudioNoBitrate).isOk = true ∧
    (do
      let t ← parseLines cfgAudioNoBitrate
      let sn ← treeGet0 t (chars "subchannels")
      let sub ← treeGet0 sn (chars "sub-a")
      return (dictFind sub.subTrees (chars "bitrate"),
              dictFind sub.subTrees (chars "inputuri")))
      = .ok (none, none) := ⟨rfl, rfl⟩

/-- Claim C8: Scenario A — a packet subchannel with bitrate 8 and input
URI `epg.dat`, a figtype-7/type-60 component on it referencing `SRV1`
with address `0x1`, and service `SRV1` with id `0x4001` build to a
service with `hasEPG = true`, `EPGpacketSize = 24` (bitrate times 3) and
`EPGinputURI = "epg.dat"`. -/
theorem c8_scenario_a :
    (parse_mux_config_lines cfgScenarioA).map
      (·.map fun s => (s.service, s.hasEPG, s.EPGpacketSize, s.EPGinputURI,
        s.EPGpacketAddress))
      = .ok [(chars "SRV1", true, some 24, some (chars "epg.dat"), some 1)] := by
  rfl

/-- Claim C10 (amended): a parsed tree missing one of the top-level
sections makes the builder raise an uncaught `KeyError` carrying the
missing section name — a mapping-key failure from `tree[key]`, not an
IndexError from indexing an empty path-lookup result (the builder
subscripts the `BoostInfoTree` root directly, whose `__getitem__` raises
`KeyError`; `BoostInfoParser.__getitem__`, the path lookup that returns
empty sequences, is never called by the builder). -/
theorem c10_missing_section_keyerror :
    (∀ t : BoostInfoTree, dictFind t.subTrees (chars "ensemble") = none →
      parse_mux_config t = .error (.keyError (chars "ensemble"))) ∧
    parse_mux_config treeOnlyEnsemble = .error (.keyError (chars "subchannels")) ∧
    parse_mux_config treeNoComponents = .error (.keyError (chars "components")) ∧
    parse_mux_config treeEnsembleOnly = .error (.keyError (chars "services")) := by
  refine ⟨?_, rfl, rfl, rfl⟩
  intro t h
  unfold parse_mux_config treeGet0 treeGet
  rw [h]
  rfl

/-- Counterexample to C10 as stated: on the empty root tree (no sections
at all) the builder fails with `KeyError "ensemble"`, which is not the
claimed index error. -/
theorem c10_counterexample_keyerror_not_indexerror :
    parse_mux_config rootNode = .error (.keyError (chars "ensemble")) ∧
    PyErr.keyError (chars "ensemble") ≠ PyErr.indexError := by
  exact ⟨rfl, by decide⟩

/-!
## Claim C9: the same-line brace split
-/

theorem shlexWs_not_special {c : Char} (h : shlexWs c = true) :
    c ≠ '\'' ∧ c ≠ '"' ∧ c ≠ '\\' := by
  simp only [shlexWs, Bool.or_eq_true, decide_eq_true_eq] at h
  rcases h with ((h | h) | h) | h <;> subst h <;>
    exact ⟨by decide, by decide, by decide⟩

theorem shlexRun_ws_norm : ∀ (sp : List Char), (∀ c ∈ sp, shlexWs c = true) →
    ∀ (inTok : Bool) (cur : List Char) (acc : List (List Char)),
    shlexRun sp .norm inTok cur acc = .ok (if inTok then acc ++ [cur] else acc) := by
  intro sp
  induction sp with
  | nil => intro _ inTok cur acc; rfl
  | cons c cs ih =>
    intro hsp inTok cur acc
    have hc := hsp c (List.mem_cons_self c cs)
    have hcs : ∀ d ∈ cs, shlexWs d = true := fun d hd => hsp d (List.mem_cons_of_mem c hd)
    show (if shlexWs c then
        (if inTok then shlexRun cs .norm false [] (acc ++ [cur])
         else shlexRun cs .norm false [] acc)
      else if c = '\'' then shlexRun cs .inS true cur acc
      else if c = '"' then shlexRun cs .inD true cur acc
      else if c = '\\' then shlexRun cs .esc true cur acc
      else shlexRun cs .norm true (cur ++ [c]) acc) = _
    rw [hc]
    simp only [if_true]
    cases inTok with
    | false => simp only [Bool.false_eq_true, if_neg (by decide : ¬ False)]; rw [ih hcs]; rfl
    | true => simp only [if_pos rfl]; rw [ih hcs]; rfl

theorem shlexRun_ws_other : ∀ (sp : List Char), (∀ c ∈ sp, shlexWs c = true) →
    ∀ (m : LexMode) (inTok : Bool) (cur : List Char) (acc : List (List Char)),
    m ≠ .norm → m ≠ .esc →
    shlexRun sp m inTok cur acc = .error .valueError := by
  intro sp
  induction sp with
  | nil =>
    intro _ m inTok cur acc h1 h2
    cases m with
    | norm => exact absurd rfl h1
    | esc => exact absurd rfl h2
    | inS => rfl
    | inD => rfl
    | escD => rfl
  | cons c cs ih =>
    intro hsp m inTok cur acc h1 h2
    have hc := hsp c (List.mem_cons_self c cs)
    have hcs : ∀ d ∈ cs, shlexWs d = true := fun d hd => hsp d (List.mem_cons_of_mem c hd)
    obtain ⟨hq, hd, hb⟩ := shlexWs_not_special hc
    cases m with
    | norm => exact absurd rfl h1
    | esc => exact absurd rfl h2
    | inS =>
      show (if c = '\'' then shlexRun cs .norm true cur acc
            else shlexRun cs .inS true (cur ++ [c]) acc) = _
      rw [if_neg hq]
      exact ih hcs .inS true (cur ++ [c]) acc (by decide) (by decide)
    | inD =>
      show (if c = '"' then shlexRun cs .norm true cur acc
            else if c = '\\' then shlexRun cs .escD true cur acc
            else shlexRun cs .inD true (cur ++ [c]) acc) = _
      rw [if_neg hd, if_neg hb]
      exact ih hcs .inD true (cur ++ [c]) acc (by decide) (by decide)
    | escD =>
      show (if c = '"' ∨ c = '\\' then shlexRun cs .inD true (cur ++ [c]) acc
            else shlexRun cs .inD true (cur ++ ['\\', c]) acc) = _
      rw [if_neg (by tauto : ¬ (c = '"' ∨ c = '\\'))]
      exact ih hcs .inD true (cur ++ ['\\', c]) acc (by decide) (by decide)

theorem shlexRun_append_ws (sp : List Char) (hsp : ∀ c ∈ sp, shlexWs c = true) :
    ∀ (t : List Char) (m : LexMode) (inTok : Bool) (cur : List Char)
      (acc : List (List Char)),
    (shlexModeEnd t m = .esc → sp = []) →
    shlexRun (t ++ sp) m inTok cur acc = shlexRun t m inTok cur acc := by
  intro t
  induction t with
  | nil =>
    intro m inTok cur acc hesc
    rw [List.nil_append]
    cases m with
    | norm => rw [shlexRun_ws_norm sp hsp]; rfl
    | esc => rw [hesc rfl]
    | inS => rw [shlexRun_ws_other sp hsp .inS inTok cur acc (by decide) (by decide)]; rfl
    | inD => rw [shlexRun_ws_other sp hsp .inD inTok cur acc (by decide) (by decide)]; rfl
    | escD =>
      cases sp with
      | nil => rfl
      | cons c cs =>
        have hc := hsp c (List.mem_cons_self c cs)
        have hcs : ∀ d ∈ cs, shlexWs d = true := fun d hd => hsp d (List.mem_cons_of_mem c hd)
        obtain ⟨_, hd, hb⟩ := shlexWs_not_special hc
        show (if c = '"' ∨ c = '\\' then shlexRun cs .inD true (cur ++ [c]) acc
              else shlexRun cs .inD true (cur ++ ['\\', c]) acc) = _
        rw [if_neg (by tauto : ¬ (c = '"' ∨ c = '\\'))]
        rw [shlexRun_ws_other cs hcs .inD true (cur ++ ['\\', c]) acc (by decide) (by decide)]
        rfl
  | cons c t' ih =>
    intro m inTok cur acc hesc
    rw [List.cons_append]
    cases m with
    | norm =>
      show (if shlexWs c then
          (if inTok then shlexRun (t' ++ sp) .norm false [] (acc ++ [cur])
           else shlexRun (t' ++ sp) .norm false [] acc)
        else if c = '\'' then shlexRun (t' ++ sp) .inS true cur acc
        else if c = '"' then shlexRun (t' ++ sp) .inD true cur acc
        else if c = '\\' then shlexRun (t' ++ sp) .esc true cur acc
        else shlexRun (t' ++ sp) .norm true (cur ++ [c]) acc) =
        (if shlexWs c then
          (if inTok then shlexRun t' .norm false [] (acc ++ [cur])
           else shlexRun t' .norm false [] acc)
        else if c = '\'' then shlexRun t' .inS true cur acc
        else if c = '"' then shlexRun t' .inD true cur acc
        else if c = '\\' then shlexRun t' .esc true cur acc
        else shlexRun t' .norm true (cur ++ [c]) acc)
      have hesc' : ∀ m', shlexModeEnd (c :: t') .norm = shlexModeEnd t' m' →
          (shlexModeEnd t' m' = .esc → sp = []) := by
        intro m' hm hm2
        exact hesc (hm.trans hm2)
      by_cases h1 : shlexWs c
      · rw [if_pos h1, if_pos h1]
        have he := hesc' .norm (by
          show (if shlexWs c then shlexModeEnd t' .norm
            else if c = '\'' then shlexModeEnd t' .inS
            else if c = '"' then shlexModeEnd t' .inD
            else if c = '\\' then shlexModeEnd t' .esc
            else shlexModeEnd t' .norm) = _
          rw [if_pos h1])
        cases inTok with
        | true => simp only [if_pos rfl]; exact ih .norm false [] (acc ++ [cur]) he
        | false => simp only [Bool.false_eq_true, if_neg (by decide : ¬ False)]
                   exact ih .norm false [] acc he
      · rw [if_neg h1, if_neg h1]
        by_cases h2 : c = '\''
        · rw [if_pos h2, if_pos h2]
          exact ih .inS true cur acc (hesc' .inS (by
            show (if shlexWs c then shlexModeEnd t' .norm
              else if c = '\'' then shlexModeEnd t' .inS
              else if c = '"' then shlexModeEnd t' .inD
              else if c = '\\' then shlexModeEnd t' .esc
              else shlexModeEnd t' .norm) = _
            rw [if_neg h1, if_pos h2]))
        · rw [if_neg h2, if_neg h2]
          by_cases h3 : c = '"'
          · rw [if_pos h3, if_pos h3]
            exact ih .inD true cur acc (hesc' .inD (by
              show (if shlexWs c then shlexModeEnd t' .norm
                else if c = '\'' then shlexModeEnd t' .inS
                else if c = '"' then shlexModeEnd t' .inD
                else if c = '\\' then shlexModeEnd t' .esc
                else shlexModeEnd t' .norm) = _
              rw [if_neg h1, if_neg h2, if_pos h3]))
          · rw [if_neg h3, if_neg h3]
            by_cases h4 : c = '\\'
            · rw [if_pos h4, if_pos h4]
              exact ih .esc true cur acc (hesc' .esc (by
                show (if shlexWs c then shlexModeEnd t' .norm
                  else if c = '\'' then shlexModeEnd t' .inS
                  else if c = '"' then shlexModeEnd t' .inD
                  else if c = '\\' then shlexModeEnd t' .esc
                  else shlexModeEnd t' .norm) = _
                rw [if_neg h1, if_neg h2, if_neg h3, if_pos h4]))
            · rw [if_neg h4, if_neg h4]
              exact ih .norm true (cur ++ [c]) acc (hesc' .norm (by
                show (if shlexWs c then shlexModeEnd t' .norm
                  else if c = '\'' then shlexModeEnd t' .inS
                  else if c = '"' then shlexModeEnd t' .inD
                  else if c = '\\' then shlexModeEnd t' .esc
                  else shlexModeEnd t' .norm) = _
                rw [if_neg h1, if_neg h2, if_neg h3, if_neg h4]))
    | esc =>
      exact ih .norm true (cur ++ [c]) acc (fun hm => hesc hm)
    | inS =>
      show (if c = '\'' then shlexRun (t' ++ sp) .norm true cur acc
            else shlexRun (t' ++ sp) .inS true (cur ++ [c]) acc) =
           (if c = '\'' then shlexRun t' .norm true cur acc
            else shlexRun t' .inS true (cur ++ [c]) acc)
      by_cases h2 : c = '\''
      · rw [if_pos h2, if_pos h2]
        exact ih .norm true cur acc (fun hm => hesc (by
          show (if c = '\'' then shlexModeEnd t' .norm else shlexModeEnd t' .inS) = _
          rw [if_pos h2]; exact hm))
      · rw [if_neg h2, if_neg h2]
        exact ih .inS true (cur ++ [c]) acc (fun hm => hesc (by
          show (if c = '\'' then shlexModeEnd t' .norm else shlexModeEnd t' .inS) = _
          rw [if_neg h2]; exact hm))
    | inD =>
      show (if c = '"' then shlexRun (t' ++ sp) .norm true cur acc
            else if c = '\\' then shlexRun (t' ++ sp) .escD true cur acc
            else shlexRun (t' ++ sp) .inD true (cur ++ [c]) acc) =
           (if c = '"' then shlexRun t' .norm true cur acc
            else if c = '\\' then shlexRun t' .escD true cur acc
            else shlexRun t' .inD true (cur ++ [c]) acc)
      by_cases h3 : c = '"'
      · rw [if_pos h3, if_pos h3]
        exact ih .norm true cur acc (fun hm => hesc (by
          show (if c = '"' then shlexModeEnd t' .norm
            else if c = '\\' then shlexModeEnd t' .escD
            else shlexModeEnd t' .inD) = _
          rw [if_pos h3]; exact hm))
      · rw [if_neg h3, if_neg h3]
        by_cases h4 : c = '\\'
        · rw [if_pos h4, if_pos h4]
          exact ih .escD true cur acc (fun hm => hesc (by
            show (if c = '"' then shlexModeEnd t' .norm
              else if c = '\\' then shlexModeEnd t' .escD
              else shlexModeEnd t' .inD) = _
            rw [if_neg h3, if_pos h4]; exact hm))
        · rw [if_neg h4, if_neg h4]
          exact ih .inD true (cur ++ [c]) acc (fun hm => hesc (by
            show (if c = '"' then shlexModeEnd t' .norm
              else if c = '\\' then shlexModeEnd t' .escD
              else shlexModeEnd t' .inD) = _
            rw [if_neg h3, if_neg h4]; exact hm))
    | escD =>
      show (if c = '"' ∨ c = '\\' then shlexRun (t' ++ sp) .inD true (cur ++ [c]) acc
            else shlexRun (t' ++ sp) .inD true (cur ++ ['\\', c]) acc) =
           (if c = '"' ∨ c = '\\' then shlexRun t' .inD true (cur ++ [c]) acc
            else shlexRun t' .inD true (cur ++ ['\\', c]) acc)
      by_cases h5 : c = '"' ∨ c = '\\'
      · rw [if_pos h5, if_pos h5]
        exact ih .inD true (cur ++ [c]) acc (fun hm => hesc hm)
      · rw [if_neg h5, if_neg h5]
        exact ih .inD true (cur ++ ['\\', c]) acc (fun hm => hesc hm)

theorem shlexSplit_append_ws (w sp : List Char) (hsp : ∀ c ∈ sp, shlexWs c = true)
    (hesc : shlexModeEnd w .norm = .esc → sp = []) :
    shlexSplit (w ++ sp) = shlexSplit w :=
  shlexRun_append_ws sp hsp w .norm false [] [] hesc


theorem charIdx_eq_none {c : Char} {s : List Char} (h : c ∉ s) : charIdx c s = none := by
  induction s with
  | nil => rfl
  | cons d ds ih =>
    simp only [List.mem_cons, not_or] at h
    simp only [charIdx]
    rw [if_neg (fun he => h.1 he.symm), ih h.2]
    rfl

theorem charIdx_append_self {c : Char} {u : List Char} (h : c ∉ u) :
    charIdx c (u ++ [c]) = some u.length := by
  induction u with
  | nil => simp [charIdx]
  | cons d ds ih =>
    simp only [List.mem_cons, not_or] at h
    simp only [List.cons_append, charIdx]
    rw [if_neg (fun he => h.1 he.symm)]
    simp only [List.append_eq]
    rw [ih h.2]
    rfl

theorem rstrip_append_nonws {l : List Char} {a : Char} (h : pyWs a = false) :
    rstrip (l ++ [a]) = l ++ [a] := by
  unfold rstrip
  rw [List.reverse_append]
  simp only [List.reverse_singleton, List.singleton_append, List.dropWhile_cons, h]
  simp

theorem lstrip_append_nonws {s : List Char} {a : Char} (h : pyWs a = false) :
    lstrip (s ++ [a]) = lstrip s ++ [a] := by
  unfold lstrip
  rw [List.dropWhile_append]
  split
  · rename_i he
    simp only [List.isEmpty_iff] at he
    rw [he, List.nil_append]
    simp [List.dropWhile_cons, h]
  · rfl

theorem pyStrip_append_brace (s : List Char) :
    pyStrip (s ++ ['{']) = lstrip s ++ ['{'] := by
  unfold pyStrip
  rw [lstrip_append_nonws (by decide), rstrip_append_nonws (by decide)]

theorem lstrip_decomp (u : List Char) :
    rstrip u ++ (u.reverse.takeWhile pyWs).reverse = u := by
  unfold rstrip
  rw [← List.reverse_append, List.takeWhile_append_dropWhile, List.reverse_reverse]

theorem commentStrip_of_not_mem {s : List Char} (h : ';' ∉ s) : commentStrip s = s := by
  unfold commentStrip
  rw [charIdx_eq_none h]

theorem dropWhile_headq (p : Char → Bool) (l : List Char) :
    ∀ x, (l.dropWhile p).head? = some x → p x = false := by
  induction l with
  | nil => intro x hx; simp [List.dropWhile] at hx
  | cons a t ih =>
    intro x hx
    rw [List.dropWhile_cons] at hx
    split at hx
    · exact ih x hx
    · rename_i hpa
      simp only [List.head?_cons, Option.some.injEq] at hx
      subst hx
      exact Bool.eq_false_iff.mpr hpa

theorem parseLinePart_brace (ctx : PCtx) : parseLinePart ['{'] ctx = openBrace ctx := by
  cases ctx <;> rfl

theorem parseLinePart_cons (a : Char) (t : List Char) (ctx : PCtx)
    (hnc : ∀ e, ctx ≠ .crash e) :
    parseLinePart (a :: t) ctx =
      (if a = '{' then openBrace ctx
       else if a = '}' then closeBrace ctx
       else match shlexSplit (a :: t) with
         | .error e => .crash e
         | .ok [] => .crash .indexError
         | .ok (k :: rest) => addKeyVal ctx k rest.head?) := by
  cases ctx with
  | crash e => exact absurd rfl (hnc e)
  | ok cur stack => rfl
  | dead r => rfl

theorem parseLinePart_append_ws (w sp : List Char) (hw : w ≠ [])
    (hsp : ∀ c ∈ sp, shlexWs c = true)
    (hesc : shlexModeEnd w .norm = .esc → sp = []) (ctx : PCtx) :
    parseLinePart (w ++ sp) ctx = parseLinePart w ctx := by
  cases ctx with
  | crash e => rfl
  | ok cur stack =>
    cases w with
    | nil => exact absurd rfl hw
    | cons a w' =>
      rw [List.cons_append,
        parseLinePart_cons a (w' ++ sp) _ (by intro e h; cases h),
        parseLinePart_cons a w' _ (by intro e h; cases h)]
      have hx := shlexSplit_append_ws (a :: w') sp hsp hesc
      rw [List.cons_append] at hx
      rw [hx]
  | dead r =>
    cases w with
    | nil => exact absurd rfl hw
    | cons a w' =>
      rw [List.cons_append,
        parseLinePart_cons a (w' ++ sp) _ (by intro e h; cases h),
        parseLinePart_cons a w' _ (by intro e h; cases h)]
      have hx := shlexSplit_append_ws (a :: w') sp hsp hesc
      rw [List.cons_append] at hx
      rw [hx]

theorem mem_lstrip {c : Char} {s : List Char} (h : c ∈ lstrip s) : c ∈ s :=
  (List.dropWhile_sublist pyWs).subset h

theorem mem_rstrip {c : Char} {l : List Char} (h : c ∈ rstrip l) : c ∈ l := by
  unfold rstrip at h
  exact List.mem_reverse.mp ((List.dropWhile_sublist pyWs).subset (List.mem_reverse.mp h))

theorem parseLine_eq_core (x : List Char) (ctx : PCtx) (hnc : ∀ e, ctx ≠ .crash e) :
    parseLine x ctx = parseLineCore (commentStrip x) ctx := by
  cases ctx with
  | crash e => exact absurd rfl (hnc e)
  | ok _ _ => rfl
  | dead _ => rfl

theorem parseLineCore_eq (s : List Char) (ctx : PCtx) (hnc : ∀ e, ctx ≠ .crash e) :
    parseLineCore s ctx =
      (if s = [] then ctx else
        match charIdx '{' s with
        | some p => if 0 < p then parseLinePart (s.drop p) (parseLinePart (s.take p) ctx)
                    else openBrace ctx
        | none => parseLinePart s ctx) := by
  cases ctx with
  | crash e => exact absurd rfl (hnc e)
  | ok _ _ => rfl
  | dead _ => rfl

theorem parseLine_lbrace (X : PCtx) : parseLine (pyStrip ['{']) X = openBrace X := by
  cases X <;> rfl


theorem parseLine_step_aux (s : List Char) (ctx : PCtx) (hnc : ∀ e, ctx ≠ .crash e)
    (hbrace : '{' ∉ s) (hsemi : ';' ∉ s)
    (hws : ∀ c ∈ s, pyWs c = true → shlexWs c = true)
    (hesc : shlexModeEnd (pyStrip s) .norm = .esc → rstrip (lstrip s) = lstrip s) :
    parseLine (pyStrip (s ++ ['{'])) ctx
      = parseLine (pyStrip ['{']) (parseLine (pyStrip s) ctx) := by
  have hbu : '{' ∉ lstrip s := fun h => hbrace (mem_lstrip h)
  have hsu : ';' ∉ lstrip s := fun h => hsemi (mem_lstrip h)
  rw [pyStrip_append_brace, parseLine_eq_core _ _ hnc,
    commentStrip_of_not_mem (by
      intro h
      rcases List.mem_append.mp h with h1 | h1
      · exact hsu h1
      · simp at h1),
    parseLineCore_eq _ _ hnc]
  cases hul : lstrip s with
  | nil =>
    have hps : pyStrip s = [] := by unfold pyStrip; rw [hul]; rfl
    rw [hps]
    rw [show parseLine [] ctx = ctx from by cases ctx with
      | crash e => exact absurd rfl (hnc e)
      | ok _ _ => rfl
      | dead _ => rfl]
    rw [parseLine_lbrace ctx]
    simp only [List.nil_append]
    rfl
  | cons a u' =>
    rw [List.cons_append]
    rw [if_neg (by simp)]
    have hidx : charIdx '{' ((a :: u') ++ ['{']) = some (a :: u').length := by
      exact charIdx_append_self (hul ▸ hbu)
    rw [List.cons_append] at hidx
    rw [hidx]
    show (if 0 < (a :: u').length then
        parseLinePart ((a :: (u' ++ ['{'])).drop (a :: u').length)
          (parseLinePart ((a :: (u' ++ ['{'])).take (a :: u').length) ctx)
      else openBrace ctx) = _
    rw [if_pos (by simp)]
    have htake : (a :: (u' ++ ['{'])).take (a :: u').length = a :: u' := by
      rw [← List.cons_append]
      exact List.take_left (a :: u') ['{']
    have hdrop : (a :: (u' ++ ['{'])).drop (a :: u').length = ['{'] := by
      rw [← List.cons_append]
      exact List.drop_left (a :: u') ['{']
    rw [htake, hdrop, parseLinePart_brace]
    -- right-hand side
    have hps : pyStrip s = rstrip (a :: u') := by unfold pyStrip; rw [hul]
    rw [hps, parseLine_eq_core _ _ hnc,
      commentStrip_of_not_mem (fun h => (hul ▸ hsu) (mem_rstrip h)),
      parseLineCore_eq _ _ hnc]
    -- the stripped declaration is non-empty
    have hhead : pyWs a = false := by
      have : (lstrip s).head? = some a := by rw [hul]; rfl
      exact dropWhile_headq pyWs s a this
    have hdec := lstrip_decomp (a :: u')
    have hwne : rstrip (a :: u') ≠ [] := by
      intro h0
      rw [h0, List.nil_append] at hdec
      have ha : a ∈ ((a :: u').reverse.takeWhile pyWs).reverse := by
        rw [hdec]; exact List.mem_cons_self a u'
      have := List.mem_takeWhile_imp (List.mem_reverse.mp ha)
      rw [hhead] at this
      cases this
    rw [if_neg hwne]
    have hnob : '{' ∉ rstrip (a :: u') := fun h => (hul ▸ hbu) (mem_rstrip h)
    rw [charIdx_eq_none hnob]
    rw [parseLine_lbrace]
    -- reduce the left parseLinePart along the trailing-whitespace split
    have hspws : ∀ c ∈ ((a :: u').reverse.takeWhile pyWs).reverse, shlexWs c = true := by
      intro c hc
      have hpys := List.mem_takeWhile_imp (List.mem_reverse.mp hc)
      have hmem : c ∈ (a :: u') :=
        List.mem_reverse.mp ((List.takeWhile_sublist pyWs).subset (List.mem_reverse.mp hc))
      have hmem2 : c ∈ lstrip s := by rw [hul]; exact hmem
      exact hws c (mem_lstrip hmem2) hpys
    have hesc' : shlexModeEnd (rstrip (a :: u')) .norm = .esc →
        ((a :: u').reverse.takeWhile pyWs).reverse = [] := by
      intro hm
      have h1 : rstrip (lstrip s) = lstrip s := by
        apply hesc
        rw [show pyStrip s = rstrip (a :: u') from hps]
        exact hm
      rw [hul] at h1
      have h2 : (a :: u') ++ ((a :: u').reverse.takeWhile pyWs).reverse
          = (a :: u') ++ [] := by
        rw [List.append_nil]
        rw [h1] at hdec
        exact hdec
      exact List.append_cancel_left h2
    have hred : parseLinePart (a :: u') ctx = parseLinePart (rstrip (a :: u')) ctx := by
      conv_lhs => rw [← hdec]
      exact parseLinePart_append_ws _ _ hwne hspws hesc' ctx
    rw [hred]

theorem parseLine_step (s : List Char) (ctx : PCtx)
    (hbrace : '{' ∉ s) (hsemi : ';' ∉ s)
    (hws : ∀ c ∈ s, pyWs c = true → shlexWs c = true)
    (hesc : shlexModeEnd (pyStrip s) .norm = .esc → rstrip (lstrip s) = lstrip s) :
    parseLine (pyStrip (s ++ ['{'])) ctx
      = parseLine (pyStrip ['{']) (parseLine (pyStrip s) ctx) := by
  cases ctx with
  | crash e => rfl
  | ok cur stack =>
    exact parseLine_step_aux s (.ok cur stack) (fun e h => PCtx.noConfusion h)
      hbrace hsemi hws hesc
  | dead r =>
    exact parseLine_step_aux s (.dead r) (fun e h => PCtx.noConfusion h)
      hbrace hsemi hws hesc

theorem parseLinesAux_append (x y : List (List Char)) (ctx : PCtx) :
    parseLinesAux (x ++ y) ctx = parseLinesAux y (parseLinesAux x ctx) := by
  induction x generalizing ctx with
  | nil => rfl
  | cons l ls ih =>
    show parseLinesAux (ls ++ y) (parseLine (pyStrip l) ctx) = _
    rw [ih]
    rfl

/-- Claim C9 (amended): a key declaration immediately followed by an
opening brace on the same line parses to the same tree as the declaration
and the brace on two separate lines, within any surrounding configuration,
provided the declaration holds no brace or comment character, none of its
whitespace is a character that `str.strip` removes but the tokenizer does
not split on (vertical tab, form feed), and its stripped text does not end
inside a backslash escape whose behaviour would differ once the trailing
whitespace is stripped away. -/
theorem c9_same_line_brace_split (pre post : List (List Char)) (s : List Char)
    (hbrace : '{' ∉ s) (hsemi : ';' ∉ s)
    (hws : ∀ c ∈ s, pyWs c = true → shlexWs c = true)
    (hesc : shlexModeEnd (pyStrip s) .norm = .esc → rstrip (lstrip s) = lstrip s) :
    parseLines (pre ++ (s ++ ['{']) :: post) = parseLines (pre ++ s :: ['{'] :: post) := by
  unfold parseLines
  have h1 : parseLinesAux (pre ++ (s ++ ['{']) :: post) (.ok rootNode [])
      = parseLinesAux (pre ++ s :: ['{'] :: post) (.ok rootNode []) := by
    rw [parseLinesAux_append, parseLinesAux_append]
    show parseLinesAux post
        (parseLine (pyStrip (s ++ ['{'])) (parseLinesAux pre (.ok rootNode [])))
      = parseLinesAux post
        (parseLine (pyStrip ['{'])
          (parseLine (pyStrip s) (parseLinesAux pre (.ok rootNode []))))
    rw [parseLine_step s _ hbrace hsemi hws hesc]
  rw [h1]

/-- Witness for C9: the split applied to `subchannels {` (declaration
with a trailing blank) inside a small configuration. -/
theorem c9_same_line_brace_split_witness :
    parseLines [chars "ensemble \x7b", chars "ecc e1", chars "\x7d",
                chars "subchannels \x7b", chars "\x7d"]
      = parseLines [chars "ensemble \x7b", chars "ecc e1", chars "\x7d",
                    chars "subchannels ", chars "\x7b", chars "\x7d"] :=
  c9_same_line_brace_split [chars "ensemble \x7b", chars "ecc e1", chars "\x7d"] [chars "\x7d"]
    (chars "subchannels ") (by decide) (by decide) (by decide) (by decide)

/-- Counterexample to C9 as stated: for the key declaration `a \x0B`
(key `a` followed by a vertical tab), the same-line form `a \x0B{` keeps
the vertical tab — `str.strip` cannot reach it past the brace and
`shlex` does not treat it as whitespace, so it becomes the VALUE of key
`a` — while on its own line the declaration is stripped to `a` with no
value: the two parses give different trees. -/
theorem c9_counterexample_vertical_tab :
    (parseLines [chars "a \x0B\x7b"]).toOption.map
        (fun t => (dictFind t.subTrees (chars "a")).map (·.map (·.value)))
      = some (some [some ['\x0B']]) ∧
    (parseLines [chars "a \x0B", chars "\x7b"]).toOption.map
        (fun t => (dictFind t.subTrees (chars "a")).map (·.map (·.value)))
      = some (some [none]) ∧
    parseLines [chars "a \x0B\x7b"] ≠ parseLines [chars "a \x0B", chars "\x7b"] := by
  refine ⟨rfl, rfl, ?_⟩
  intro h
  exact absurd
    (congrArg (fun r => (Except.toOption r).map
      (fun t => (dictFind t.subTrees (chars "a")).map (·.map (·.value)))) h)
    (by decide)
